import Mathlib

/-!
# The fixed-size block data file of `Atomic/FileMutexAtomic/main.go`

A shallow embedding of `myDataFile` and its methods, and the properties of the
specification settled against it.

Modelling conventions.

* A method call is a function from the state of the data file to the outcome of the
  call and the state it leaves behind.  The call is run by one goroutine until it
  returns, suspends or aborts; no other goroutine steps in between (the state carries
  the locks, so a call that meets a held lock is seen to block).
* The compare-and-swap allocation loop is also modelled step by step for any number of
  goroutines (`AllocSys`), one atomic operation per step.
* The two cursors are `int64` variables.  `Read64` and `Write64` are the methods with
  the addition `offset + int64(df.dataLen)` in `int64`, which wraps around at `2 ^ 63`;
  the accounting of the cursors is proved on them.  `Read` and `Write` compute the same addition in
  `Int`; they are the same functions as long as the sum stays below `2 ^ 63`
  (`Read64_eq_Read`, `Write64_eq_Write`), which holds for fewer than `2 ^ 31` calls
  whatever the block length (`cursors_in_range`).  `int` is taken to be 64 bits wide.
* `sync.RWMutex`, `sync.Cond`, `os.Create`, `(*os.File).ReadAt` and `(*os.File).Write`
  belong to the Go library; they are modelled from their documented behaviour.
-/

namespace FileMutexAtomic

/-! ## Library: errors, files, locks -/

/-- Go type `Data`, a byte slice (`type Data []byte`). -/
abbrev Data := List UInt8

/-- Error values met by the program: `io.EOF`, an error made by `errors.New`, and any
other error of the storage layer (a `*PathError`). -/
inductive Err
  | EOF
  | New (msg : String)
  | Path (msg : String)
  deriving DecidableEq

/-- An open `os.File`: the bytes it stores, the position of the descriptor (where the
unpositioned `Write` puts its bytes) and the failure the storage layer answers every
transfer with, if the device is broken. -/
structure File where
  bytes : List UInt8
  pos : Nat
  fault : Option String
  deriving DecidableEq

/-- Positioned read `f.ReadAt(b, off)`: fills `b` from the bytes at `off` and answers
with the number of bytes read and the error.  A negative offset and a device failure
are errors of the storage layer; fewer than `len(b)` bytes at `off` is `io.EOF`.  The
descriptor position is not used and does not move. -/
def File.ReadAt (f : File) (b : List UInt8) (off : Int) : (Nat × Option Err) × List UInt8 :=
  if off < 0 then ((0, some (Err.Path "negative offset")), b)
  else
    match f.fault with
    | some msg => ((0, some (Err.Path msg)), b)
    | none =>
      let got := (f.bytes.drop off.toNat).take b.length
      if got.length < b.length then ((got.length, some Err.EOF), got ++ b.drop got.length)
      else ((got.length, none), got)

/-- Unpositioned write `f.Write(b)`: stores `b` at the descriptor position and moves the
position past it.  On a device failure nothing is stored. -/
def File.Write (f : File) (b : List UInt8) : (Nat × Option Err) × File :=
  match f.fault with
  | some msg => ((0, some (Err.Path msg)), f)
  | none =>
    if b = [] then ((0, none), f)
    else
      ((b.length, none),
        { f with
          bytes := f.bytes.take f.pos ++ List.replicate (f.pos - f.bytes.length) 0 ++ b
                    ++ f.bytes.drop (f.pos + b.length)
          pos := f.pos + b.length })

/-- State of a `sync.RWMutex`: held by a writer, and the number of readers holding it. -/
structure RWMutex where
  writer : Bool
  readers : Nat
  deriving DecidableEq

/-- `rw.Lock()`: takes the mutex for writing; `none` when the caller has to block
because a writer or a reader holds it. -/
def RWMutex.Lock (rw : RWMutex) : Option RWMutex :=
  if rw.writer = true ∨ 0 < rw.readers then none else some { rw with writer := true }

/-- `rw.Unlock()`: a run-time fatal error if `rw` is not locked for writing. -/
def RWMutex.Unlock (rw : RWMutex) : Except String RWMutex :=
  if rw.writer = true then Except.ok { rw with writer := false }
  else Except.error "sync: Unlock of unlocked RWMutex"

/-- `rw.RLock()`: takes the mutex for reading; `none` when a writer holds it. -/
def RWMutex.RLock (rw : RWMutex) : Option RWMutex :=
  if rw.writer = true then none else some { rw with readers := rw.readers + 1 }

/-- `rw.RUnlock()`: a run-time fatal error if `rw` is not locked for reading. -/
def RWMutex.RUnlock (rw : RWMutex) : Except String RWMutex :=
  if rw.readers = 0 then Except.error "sync: RUnlock of unlocked RWMutex"
  else Except.ok { rw with readers := rw.readers - 1 }

/-- Which `sync.Locker` of the file mutex a condition variable was built on: the mutex
itself (`Lock`/`Unlock`) or its `RLocker()` (`RLock`/`RUnlock`). -/
inductive Locker
  | W
  | R
  deriving DecidableEq

/-- `c.L.Unlock()` for a locker of the file mutex. -/
def Locker.Unlock : Locker → RWMutex → Except String RWMutex
  | Locker.W, rw => rw.Unlock
  | Locker.R, rw => rw.RUnlock

/-- A `sync.Cond`: its locker `L` and the number of goroutines parked on it. -/
structure Cond where
  L : Locker
  waiters : Nat
  deriving DecidableEq

/-- `sync.NewCond(l)`. -/
def NewCond (l : Locker) : Cond := { L := l, waiters := 0 }

/-- `c.Signal()`: wakes one parked goroutine, if there is one. -/
def Cond.Signal (c : Cond) : Cond := { c with waiters := c.waiters - 1 }

/-- `c.Wait()` up to the point where the goroutine is parked: it joins the waiters and
then calls `c.L.Unlock()`, whose fatal error ends the process.  Gives the condition
variable afterwards and the answer of the unlock. -/
def Cond.Wait (c : Cond) (rw : RWMutex) : Cond × Except String RWMutex :=
  ({ c with waiters := c.waiters + 1 }, c.L.Unlock rw)

/-- `atomic.LoadInt64(addr)`. -/
def LoadInt64 (addr : Int) : Int := addr

/-- `atomic.CompareAndSwapInt64(addr, old, new)`: whether the swap took place, and the
value stored afterwards. -/
def CompareAndSwapInt64 (addr old new : Int) : Bool × Int :=
  if addr = old then (true, new) else (false, addr)

/-! ## The data file -/

/-- How a method call ends for the goroutine that made it. -/
inductive Outcome (α : Type)
  | returned (a : α)
  | parked
  | blocked
  | fatal (msg : String)
  | panicked (msg : String)
  deriving DecidableEq

/-- Go struct `myDataFile`.  `wmutex` and `rmutex` are declared by the source and used
by none of its methods. -/
structure myDataFile where
  f : File
  fmutex : RWMutex
  woffset : Int
  roffset : Int
  wmutex : Bool
  rmutex : Bool
  dataLen : Nat
  rcond : Cond
  deriving DecidableEq

/-- The file system as `os.Create` sees it: the content stored at each path, the error
creation meets at a path (if any) and the failure of the device behind a path. -/
structure FS where
  content : String → Option (List UInt8)
  refuse : String → Option String
  fault : String → Option String

/-- `os.Create(path)`: creates the named file or truncates it if it exists, and opens
it with the descriptor at position 0. -/
def Create (fs : FS) (path : String) : Except Err File × FS :=
  match fs.refuse path with
  | some msg => (Except.error (Err.Path msg), fs)
  | none =>
    (Except.ok { bytes := [], pos := 0, fault := fs.fault path },
      { fs with content := fun p => if p = path then some [] else fs.content p })

/-- `NewDataFile(path, dataLen)`: the data file or the error, and the file system
afterwards. -/
def NewDataFile (fs : FS) (path : String) (dataLen : Nat) : Except Err myDataFile × FS :=
  match Create fs path with
  | (Except.error err, fs1) => (Except.error err, fs1)
  | (Except.ok f, fs1) =>
    if dataLen = 0 then (Except.error (Err.New "Invalid data length!"), fs1)
    else
      (Except.ok
        { f := f, fmutex := { writer := false, readers := 0 }, woffset := 0, roffset := 0,
          wmutex := false, rmutex := false, dataLen := dataLen,
          rcond := NewCond Locker.R },
        fs1)

/-- `df.DataLen()`. -/
def DataLen (df : myDataFile) : Nat := df.dataLen

/-- The allocation loop of `Read` and `Write` run without interference: the swap finds
the value just loaded, so the first pass leaves the loop.  Gives the offset loaded and
the cursor afterwards.  The sum is taken in `Int`; `allocate64` takes it in `int64`. -/
def allocate (cursor : Int) (dataLen : Nat) : Int × Int :=
  let offset := LoadInt64 cursor
  let swap := CompareAndSwapInt64 cursor offset (offset + (dataLen : Int))
  (offset, swap.2)

/-- `df.Read()`: the results `(rsn, d, err)` when the call returns (`d` is `none` for a
nil slice), and the data file afterwards.  A pass of the `for` loop around `ReadAt`
either returns or reaches `df.rcond.Wait()`, where the goroutine is parked or the
process ends; the call is run up to that point. -/
def Read (df : myDataFile) : Outcome (Int × Option Data × Option Err) × myDataFile :=
  let alloc := allocate df.roffset df.dataLen
  let offset := alloc.1
  let df1 := { df with roffset := alloc.2 }
  if df.dataLen = 0 then (Outcome.panicked "integer divide by zero", df1)
  else
    let rsn := offset.tdiv (df.dataLen : Int)
    let bytes : List UInt8 := List.replicate df.dataLen 0
    match df1.fmutex.Lock with
    | none => (Outcome.blocked, df1)
    | some held =>
      match df1.f.ReadAt bytes offset with
      | ((_, some Err.EOF), _) =>
        match df1.rcond.Wait held with
        | (c, Except.error msg) => (Outcome.fatal msg, { df1 with fmutex := held, rcond := c })
        | (c, Except.ok rw) => (Outcome.parked, { df1 with fmutex := rw, rcond := c })
      | ((_, some err), _) =>
        match held.Unlock with
        | Except.error msg => (Outcome.fatal msg, { df1 with fmutex := held })
        | Except.ok rw => (Outcome.returned (rsn, none, some err), { df1 with fmutex := rw })
      | ((_, none), bytes1) =>
        match held.Unlock with
        | Except.error msg => (Outcome.fatal msg, { df1 with fmutex := held })
        | Except.ok rw => (Outcome.returned (rsn, some bytes1, none), { df1 with fmutex := rw })

/-- The bytes `Write` hands to the file: `d[0:dataLen]` if `len(d) > dataLen`, else `d`. -/
def normalized (dataLen : Nat) (d : Data) : Data :=
  if d.length > dataLen then d.take dataLen else d

/-- `df.Write(d)`: the results `(wsn, err)` when the call returns, and the data file
afterwards.  The loop declares its own `offset` (`offset := atomic.LoadInt64(...)`), so
the `offset` that `wsn` is computed from is the one declared before the loop, which no
statement assigns. -/
def Write (df : myDataFile) (d : Data) : Outcome (Int × Option Err) × myDataFile :=
  let offset : Int := 0
  let alloc := allocate df.woffset df.dataLen
  let df1 := { df with woffset := alloc.2 }
  if df.dataLen = 0 then (Outcome.panicked "integer divide by zero", df1)
  else
    let wsn := offset.tdiv (df.dataLen : Int)
    let bytes := normalized df.dataLen d
    match df1.fmutex.Lock with
    | none => (Outcome.blocked, df1)
    | some held =>
      let w := df1.f.Write bytes
      let c := df1.rcond.Signal
      match held.Unlock with
      | Except.error msg => (Outcome.fatal msg, { df1 with f := w.2, fmutex := held, rcond := c })
      | Except.ok rw => (Outcome.returned (wsn, w.1.2), { df1 with f := w.2, fmutex := rw, rcond := c })

/-- `df.Rsn()`; `none` for the integer-divide-by-zero panic. -/
def Rsn (df : myDataFile) : Option Int :=
  if df.dataLen = 0 then none else some ((LoadInt64 df.roffset).tdiv (df.dataLen : Int))

/-- `df.Wsn()`; `none` for the integer-divide-by-zero panic. -/
def Wsn (df : myDataFile) : Option Int :=
  if df.dataLen = 0 then none else some ((LoadInt64 df.woffset).tdiv (df.dataLen : Int))

/-! ## The cursors in `int64` -/

/-- The `int64` value of an integer: two's complement wrap-around. -/
def wrapInt64 (x : Int) : Int := (x + 2 ^ 63) % 2 ^ 64 - 2 ^ 63

/-- The allocation loop run without interference, the sum `offset + int64(dataLen)`
computed in `int64`.  Gives the offset loaded and the cursor afterwards. -/
def allocate64 (cursor : Int) (dataLen : Nat) : Int × Int :=
  let offset := LoadInt64 cursor
  let swap := CompareAndSwapInt64 cursor offset (wrapInt64 (offset + (dataLen : Int)))
  (offset, swap.2)

/-- `df.Read()` with the read cursor in `int64` arithmetic. -/
def Read64 (df : myDataFile) : Outcome (Int × Option Data × Option Err) × myDataFile :=
  let alloc := allocate64 df.roffset df.dataLen
  let offset := alloc.1
  let df1 := { df with roffset := alloc.2 }
  if df.dataLen = 0 then (Outcome.panicked "integer divide by zero", df1)
  else
    let rsn := offset.tdiv (df.dataLen : Int)
    let bytes : List UInt8 := List.replicate df.dataLen 0
    match df1.fmutex.Lock with
    | none => (Outcome.blocked, df1)
    | some held =>
      match df1.f.ReadAt bytes offset with
      | ((_, some Err.EOF), _) =>
        match df1.rcond.Wait held with
        | (c, Except.error msg) => (Outcome.fatal msg, { df1 with fmutex := held, rcond := c })
        | (c, Except.ok rw) => (Outcome.parked, { df1 with fmutex := rw, rcond := c })
      | ((_, some err), _) =>
        match held.Unlock with
        | Except.error msg => (Outcome.fatal msg, { df1 with fmutex := held })
        | Except.ok rw => (Outcome.returned (rsn, none, some err), { df1 with fmutex := rw })
      | ((_, none), bytes1) =>
        match held.Unlock with
        | Except.error msg => (Outcome.fatal msg, { df1 with fmutex := held })
        | Except.ok rw => (Outcome.returned (rsn, some bytes1, none), { df1 with fmutex := rw })

/-- `df.Write(d)` with the write cursor in `int64` arithmetic. -/
def Write64 (df : myDataFile) (d : Data) : Outcome (Int × Option Err) × myDataFile :=
  let offset : Int := 0
  let alloc := allocate64 df.woffset df.dataLen
  let df1 := { df with woffset := alloc.2 }
  if df.dataLen = 0 then (Outcome.panicked "integer divide by zero", df1)
  else
    let wsn := offset.tdiv (df.dataLen : Int)
    let bytes := normalized df.dataLen d
    match df1.fmutex.Lock with
    | none => (Outcome.blocked, df1)
    | some held =>
      let w := df1.f.Write bytes
      let c := df1.rcond.Signal
      match held.Unlock with
      | Except.error msg => (Outcome.fatal msg, { df1 with f := w.2, fmutex := held, rcond := c })
      | Except.ok rw => (Outcome.returned (wsn, w.1.2), { df1 with f := w.2, fmutex := rw, rcond := c })

/-! ## Sequences of calls -/

/-- One call on the data file. -/
inductive Op
  | Read
  | Write (d : Data)
  deriving DecidableEq

/-- The data file after one call, however the call ended. -/
def call (df : myDataFile) : Op → myDataFile
  | Op.Read => (Read df).2
  | Op.Write d => (Write df d).2

/-- The data file after a sequence of calls made one after the other.  A call that ends
in a suspended or aborted goroutine still leaves its state behind and the later calls
are applied to it, so `exec` covers every state the calls of a program reach. -/
def exec (df : myDataFile) (ops : List Op) : myDataFile := ops.foldl call df

/-- The data file after one call, the cursors in `int64` arithmetic. -/
def call64 (df : myDataFile) : Op → myDataFile
  | Op.Read => (Read64 df).2
  | Op.Write d => (Write64 df d).2

/-- The data file after a sequence of calls made one after the other, the cursors in
`int64` arithmetic. -/
def exec64 (df : myDataFile) (ops : List Op) : myDataFile := ops.foldl call64 df

/-- The calls `Write(p)` for the payloads `p` of a list, in order. -/
def writes (ps : List Data) : List Op := ps.map Op.Write

/-- The calls of `Read` made `n` times. -/
def reads (n : Nat) : List Op := List.replicate n Op.Read

/-- The payloads of the `Write` calls of a sequence, in order. -/
def payloads : List Op → List Data
  | [] => []
  | Op.Read :: ops => payloads ops
  | Op.Write d :: ops => d :: payloads ops

/-- The number of `Write` calls in a sequence. -/
def writeCalls : List Op → Nat
  | [] => 0
  | Op.Read :: ops => writeCalls ops
  | Op.Write _ :: ops => writeCalls ops + 1

/-- The number of `Read` calls in a sequence. -/
def readCalls : List Op → Nat
  | [] => 0
  | Op.Read :: ops => readCalls ops + 1
  | Op.Write _ :: ops => readCalls ops

/-- Whether every `Write` call of the sequence returned with a nil error. -/
def writesSucceed : myDataFile → List Op → Bool
  | _, [] => true
  | df, Op.Read :: ops => writesSucceed (Read df).2 ops
  | df, Op.Write d :: ops =>
    (match (Write df d).1 with
      | Outcome.returned (_, none) => true
      | _ => false) && writesSucceed (Write df d).2 ops

/-- The bytes `b` are stored in the file starting at byte offset `off`. -/
abbrev storedAt (f : File) (off : Nat) (b : List UInt8) : Prop :=
  (f.bytes.drop off).take b.length = b

/-- The slot `[off, off + len)` is fully present in the file. -/
abbrev slotPresent (f : File) (off : Int) (len : Nat) : Prop :=
  0 ≤ off ∧ off.toNat + len ≤ f.bytes.length

/-- A file system with no file, where creation succeeds and the device works. -/
def emptyFS : FS := { content := fun _ => none, refuse := fun _ => none, fault := fun _ => none }

/-- A file system whose path `log` holds the bytes 1, 2, 3. -/
def logFS : FS :=
  { content := fun p => if p = "log" then some [1, 2, 3] else none
    refuse := fun _ => none
    fault := fun _ => none }

/-- The data file `NewDataFile` builds for a block length, on a file that works. -/
def fresh (dataLen : Nat) : myDataFile :=
  { f := { bytes := [], pos := 0, fault := none }
    fmutex := { writer := false, readers := 0 }, woffset := 0, roffset := 0
    wmutex := false, rmutex := false, dataLen := dataLen, rcond := NewCond Locker.R }

/-- The file mutex held by nobody. -/
def unlocked : RWMutex := { writer := false, readers := 0 }

/-- The state between calls that returned: nobody holds the file mutex, the device
works, the descriptor stands at the end of the file and the block length is not 0. -/
def Ready (df : myDataFile) : Prop :=
  df.fmutex = unlocked ∧ df.f.fault = none ∧ df.f.pos = df.f.bytes.length ∧ df.dataLen ≠ 0

/-! ## The allocation loop, step by step -/

/-- Where a goroutine stands in the loop
`for { offset = Load(cursor); if CompareAndSwap(cursor, offset, offset + dataLen) { break } }`:
before the load, holding a loaded offset before the swap, or out of the loop. -/
inductive AllocPc
  | load
  | cas (offset : Int)
  | done (offset : Int)
  deriving DecidableEq

/-- The cursor shared by the goroutines and the place of each goroutine in its loop. -/
structure AllocSys where
  cursor : Int
  pcs : List AllocPc
  deriving DecidableEq

/-- Goroutine `i` performs its next atomic operation.  A goroutine out of its loop (or
an index that names none) changes nothing. -/
def AllocSys.step (dataLen : Nat) (s : AllocSys) (i : Nat) : AllocSys :=
  match s.pcs[i]? with
  | some AllocPc.load => { s with pcs := s.pcs.set i (AllocPc.cas (LoadInt64 s.cursor)) }
  | some (AllocPc.cas offset) =>
    match CompareAndSwapInt64 s.cursor offset (offset + (dataLen : Int)) with
    | (true, c) => { cursor := c, pcs := s.pcs.set i (AllocPc.done offset) }
    | (false, c) => { cursor := c, pcs := s.pcs.set i AllocPc.load }
  | _ => s

/-- The system of `n` calls entering their loops on a cursor at 0. -/
def AllocSys.init (n : Nat) : AllocSys := { cursor := 0, pcs := List.replicate n AllocPc.load }

/-- The system of `n` concurrent `Read` calls on a data file, each entering its loop
on the read offset. -/
def AllocSys.readers (df : myDataFile) (n : Nat) : AllocSys :=
  { cursor := df.roffset, pcs := List.replicate n AllocPc.load }

/-- The system after the interleaving `sched`, the list of the goroutines that step. -/
def AllocSys.run (dataLen : Nat) (s : AllocSys) (sched : List Nat) : AllocSys :=
  sched.foldl (AllocSys.step dataLen) s

/-- The offset a goroutine left its loop with. -/
def AllocPc.held : AllocPc → Option Int
  | AllocPc.done offset => some offset
  | _ => none

/-- The offsets held by the goroutines that left their loops, in goroutine order. -/
def AllocSys.offsets (s : AllocSys) : List Int := s.pcs.filterMap AllocPc.held

/-- Every goroutine has left its loop. -/
def AllocSys.allDone (s : AllocSys) : Bool := s.pcs.all fun pc => pc.held.isSome

/-- The first `n` multiples of `dataLen`: `0, dataLen, ..., (n - 1) * dataLen`. -/
def multiples (dataLen n : Nat) : List Int :=
  (List.range n).map fun k : Nat => (k : Int) * (dataLen : Int)

/-- The sequence numbers `0, ..., n - 1`. -/
def seqNumbers (n : Nat) : List Int := (List.range n).map fun k : Nat => (k : Int)

/-- Goroutine `i` exists and is still in its loop. -/
def AllocSys.live (s : AllocSys) (i : Nat) : Bool :=
  match s.pcs[i]? with
  | some AllocPc.load => true
  | some (AllocPc.cas _) => true
  | _ => false

/-- Every step of the interleaving is taken by a goroutine still in its loop. -/
def AllocSys.effective (dataLen : Nat) : AllocSys → List Nat → Bool
  | _, [] => true
  | s, i :: sched => s.live i && AllocSys.effective dataLen (s.step dataLen i) sched

/-- Potential of one goroutine among `n`: what it may still cost before it leaves. -/
def AllocPc.weight (n : Nat) (cursor : Int) : AllocPc → Nat
  | AllocPc.load => 2 * n + 2
  | AllocPc.cas offset => if offset = cursor then 2 * n + 1 else 2 * n + 3
  | AllocPc.done _ => 0

/-- Potential of the system: the sum of the potentials of its goroutines. -/
def AllocSys.potential (s : AllocSys) : Nat :=
  (s.pcs.map (AllocPc.weight s.pcs.length s.cursor)).sum

/-! ## Construction -/

theorem Create_ok (fs : FS) (path : String) (hc : fs.refuse path = none) :
    Create fs path =
      (Except.ok { bytes := [], pos := 0, fault := fs.fault path },
        { fs with content := fun p => if p = path then some [] else fs.content p }) := by
  simp [Create, hc]

theorem NewDataFile_ok (fs : FS) (path : String) (dataLen : Nat) (df : myDataFile)
    (h : (NewDataFile fs path dataLen).1 = Except.ok df) :
    dataLen ≠ 0 ∧ fs.refuse path = none ∧
      df = { fresh dataLen with f := { bytes := [], pos := 0, fault := fs.fault path } } := by
  unfold NewDataFile Create at h
  cases hr : fs.refuse path with
  | some msg => simp [hr] at h
  | none =>
    simp only [hr] at h
    by_cases h0 : dataLen = 0
    · simp [h0] at h
    · simp only [h0, if_false] at h
      refine ⟨h0, rfl, ?_⟩
      injection h with h
      rw [← h]
      rfl

theorem Read_dataLen (df : myDataFile) : (Read df).2.dataLen = df.dataLen := by
  unfold Read
  simp only
  split_ifs
  · rfl
  · repeat' split
    all_goals rfl

theorem Write_dataLen (df : myDataFile) (d : Data) : (Write df d).2.dataLen = df.dataLen := by
  unfold Write
  simp only
  split_ifs
  · rfl
  · repeat' split
    all_goals rfl

theorem call_dataLen (df : myDataFile) (op : Op) : (call df op).dataLen = df.dataLen := by
  cases op with
  | Read => exact Read_dataLen df
  | Write d => exact Write_dataLen df d

theorem exec_dataLen (df : myDataFile) (ops : List Op) : (exec df ops).dataLen = df.dataLen := by
  induction ops generalizing df with
  | nil => rfl
  | cons op ops ih =>
    show (exec (call df op) ops).dataLen = df.dataLen
    rw [ih, call_dataLen]

/-! ## What one call does to the cursors, the file and the locks -/

theorem allocate_fst (cursor : Int) (dataLen : Nat) : (allocate cursor dataLen).1 = cursor := rfl

theorem allocate_snd (cursor : Int) (dataLen : Nat) :
    (allocate cursor dataLen).2 = cursor + (dataLen : Int) := by
  simp [allocate, CompareAndSwapInt64, LoadInt64]

/-- Run alone, the loop leaves on its first pass: the swap of the value just loaded
takes place. -/
theorem allocate_swaps (cursor : Int) (dataLen : Nat) :
    (CompareAndSwapInt64 cursor (LoadInt64 cursor) (LoadInt64 cursor + (dataLen : Int))).1 = true := by
  simp [CompareAndSwapInt64, LoadInt64]

theorem Read_roffset (df : myDataFile) :
    (Read df).2.roffset = df.roffset + (df.dataLen : Int) := by
  unfold Read
  simp only [allocate_snd]
  split_ifs
  · rfl
  · repeat' split
    all_goals rfl

theorem Read_woffset (df : myDataFile) : (Read df).2.woffset = df.woffset := by
  unfold Read
  simp only
  split_ifs
  · rfl
  · repeat' split
    all_goals rfl

theorem Read_f (df : myDataFile) : (Read df).2.f = df.f := by
  unfold Read
  simp only
  split_ifs
  · rfl
  · repeat' split
    all_goals rfl

theorem Write_woffset (df : myDataFile) (d : Data) :
    (Write df d).2.woffset = df.woffset + (df.dataLen : Int) := by
  unfold Write
  simp only [allocate_snd]
  split_ifs
  · rfl
  · repeat' split
    all_goals rfl

theorem Write_roffset (df : myDataFile) (d : Data) : (Write df d).2.roffset = df.roffset := by
  unfold Write
  simp only
  split_ifs
  · rfl
  · repeat' split
    all_goals rfl

/-- Whenever `Write` returns, the sequence number it returns is 0. -/
theorem Write_wsn (df : myDataFile) (d : Data) (wsn : Int) (err : Option Err)
    (h : (Write df d).1 = Outcome.returned (wsn, err)) : wsn = 0 := by
  unfold Write at h
  simp only at h
  split_ifs at h
  repeat' split at h
  all_goals simp at h
  exact h.1.symm

theorem File_Write_end (f : File) (b : List UInt8) (hf : f.fault = none)
    (hp : f.pos = f.bytes.length) :
    f.Write b = ((b.length, none),
      { bytes := f.bytes ++ b, pos := f.bytes.length + b.length, fault := none }) := by
  unfold File.Write
  simp only [hf]
  by_cases hb : b = []
  · subst hb
    cases f
    simp_all
  · simp only [hb, if_false, hp]
    simp

theorem File_ReadAt_present (f : File) (n : Nat) (off : Int) (hf : f.fault = none)
    (h : slotPresent f off n) :
    f.ReadAt (List.replicate n 0) off = ((n, none), (f.bytes.drop off.toNat).take n) := by
  obtain ⟨h0, h1⟩ := h
  unfold File.ReadAt
  have hlen : ((f.bytes.drop off.toNat).take n).length = n := by
    simp only [List.length_take, List.length_drop]
    omega
  simp only [hf, List.length_replicate, hlen, lt_irrefl, if_false]
  simp [not_lt.mpr h0]

theorem File_ReadAt_absent (f : File) (n : Nat) (off : Int) (hf : f.fault = none)
    (hn : n ≠ 0) (h0 : 0 ≤ off) (h : ¬ slotPresent f off n) :
    (f.ReadAt (List.replicate n 0) off).1.2 = some Err.EOF := by
  unfold File.ReadAt
  have h1 : ¬ (off.toNat + n ≤ f.bytes.length) := fun hh => h ⟨h0, hh⟩
  have hlen : ((f.bytes.drop off.toNat).take (List.replicate n (0 : UInt8)).length).length
      < (List.replicate n (0 : UInt8)).length := by
    simp only [List.length_take, List.length_drop, List.length_replicate]
    omega
  rw [if_neg (not_lt.mpr h0)]
  simp only [hf]
  rw [if_pos hlen]

theorem Ready_fresh (dataLen : Nat) (h : dataLen ≠ 0) : Ready (fresh dataLen) :=
  ⟨rfl, rfl, rfl, h⟩

theorem Write_Ready (df : myDataFile) (d : Data) (h : Ready df) :
    Write df d = (Outcome.returned (0, none),
      { df with
        woffset := df.woffset + (df.dataLen : Int)
        f := { bytes := df.f.bytes ++ normalized df.dataLen d
               pos := df.f.bytes.length + (normalized df.dataLen d).length
               fault := none }
        rcond := df.rcond.Signal }) := by
  obtain ⟨hm, hf, hp, hL⟩ := h
  unfold Write
  simp only [hL, if_false, allocate_snd, hm, unlocked, RWMutex.Lock, RWMutex.Unlock,
    File_Write_end df.f _ hf hp]
  simp

theorem Read_Ready_present (df : myDataFile) (h : Ready df)
    (hs : slotPresent df.f df.roffset df.dataLen) :
    Read df = (Outcome.returned (df.roffset.tdiv (df.dataLen : Int),
        some ((df.f.bytes.drop df.roffset.toNat).take df.dataLen), none),
      { df with roffset := df.roffset + (df.dataLen : Int) }) := by
  obtain ⟨hm, hf, hp, hL⟩ := h
  unfold Read
  simp only [hL, if_false, allocate_snd, allocate_fst, hm, unlocked, RWMutex.Lock,
    RWMutex.Unlock, File_ReadAt_present df.f _ _ hf hs]
  simp

/-- With the condition variable built on the read side of the mutex, a `Read` whose
slot is not fully in the file ends in the fatal error of `RUnlock`: it neither returns
nor parks. -/
theorem Read_Ready_absent (df : myDataFile) (h : Ready df) (hc : df.rcond.L = Locker.R)
    (h0 : 0 ≤ df.roffset) (hs : ¬ slotPresent df.f df.roffset df.dataLen) :
    (Read df).1 = Outcome.fatal "sync: RUnlock of unlocked RWMutex" := by
  obtain ⟨hm, hf, hp, hL⟩ := h
  have he := File_ReadAt_absent df.f df.dataLen df.roffset hf hL h0 hs
  unfold Read
  simp only [hL, if_false, allocate_snd, allocate_fst, hm, unlocked, RWMutex.Lock]
  simp only [Bool.false_eq_true, lt_irrefl, or_self, if_false]
  split
  · simp [Cond.Wait, hc, Locker.Unlock, RWMutex.RUnlock]
  · rename_i hne heq
    rw [heq] at he
    exact absurd (Option.some.inj he) hne
  · rename_i heq
    rw [heq] at he
    simp at he

/-! ## Sequences of calls: the cursors -/

theorem exec_cons (df : myDataFile) (op : Op) (ops : List Op) :
    exec df (op :: ops) = exec (call df op) ops := rfl

theorem exec_append (df : myDataFile) (xs ys : List Op) :
    exec df (xs ++ ys) = exec (exec df xs) ys := by
  simp [exec, List.foldl_append]

theorem writeCalls_append (xs ys : List Op) :
    writeCalls (xs ++ ys) = writeCalls xs + writeCalls ys := by
  induction xs with
  | nil => simp [writeCalls]
  | cons op xs ih =>
    cases op <;> simp [writeCalls, ih]
    omega

theorem readCalls_append (xs ys : List Op) :
    readCalls (xs ++ ys) = readCalls xs + readCalls ys := by
  induction xs with
  | nil => simp [readCalls]
  | cons op xs ih =>
    cases op <;> simp [readCalls, ih]
    omega

theorem exec_woffset (df : myDataFile) (ops : List Op) :
    (exec df ops).woffset = df.woffset + (writeCalls ops : Int) * (df.dataLen : Int) := by
  induction ops generalizing df with
  | nil => simp [exec, writeCalls]
  | cons op ops ih =>
    rw [exec_cons, ih, call_dataLen]
    cases op with
    | Read => simp [call, Read_woffset, writeCalls]
    | Write d =>
      simp only [call, Write_woffset, writeCalls]
      push_cast
      ring

theorem exec_roffset (df : myDataFile) (ops : List Op) :
    (exec df ops).roffset = df.roffset + (readCalls ops : Int) * (df.dataLen : Int) := by
  induction ops generalizing df with
  | nil => simp [exec, readCalls]
  | cons op ops ih =>
    rw [exec_cons, ih, call_dataLen]
    cases op with
    | Read =>
      simp only [call, Read_roffset, readCalls]
      push_cast
      ring
    | Write d => simp [call, Write_roffset, readCalls]

theorem Wsn_of_woffset (df : myDataFile) (m : Nat) (hL : df.dataLen ≠ 0)
    (h : df.woffset = (m : Int) * (df.dataLen : Int)) : Wsn df = some (m : Int) := by
  have hL' : (df.dataLen : Int) ≠ 0 := by exact_mod_cast hL
  simp [Wsn, hL, LoadInt64, h, Int.mul_tdiv_cancel _ hL']

theorem Rsn_of_roffset (df : myDataFile) (n : Nat) (hL : df.dataLen ≠ 0)
    (h : df.roffset = (n : Int) * (df.dataLen : Int)) : Rsn df = some (n : Int) := by
  have hL' : (df.dataLen : Int) ≠ 0 := by exact_mod_cast hL
  simp [Rsn, hL, LoadInt64, h, Int.mul_tdiv_cancel _ hL']

/-- The cursors of a data file built by `NewDataFile` after any sequence of calls. -/
theorem exec_cursors (fs : FS) (path : String) (dataLen : Nat) (df0 : myDataFile)
    (h : (NewDataFile fs path dataLen).1 = Except.ok df0) (ops : List Op) :
    (exec df0 ops).dataLen = dataLen ∧ dataLen ≠ 0 ∧
      (exec df0 ops).woffset = (writeCalls ops : Int) * (dataLen : Int) ∧
      (exec df0 ops).roffset = (readCalls ops : Int) * (dataLen : Int) := by
  obtain ⟨hL, _, hdf⟩ := NewDataFile_ok fs path dataLen df0 h
  have hd : df0.dataLen = dataLen := by rw [hdf]; rfl
  have hw : df0.woffset = 0 := by rw [hdf]; rfl
  have hr : df0.roffset = 0 := by rw [hdf]; rfl
  refine ⟨by rw [exec_dataLen, hd], hL, ?_, ?_⟩
  · rw [exec_woffset, hw, hd, zero_add]
  · rw [exec_roffset, hr, hd, zero_add]

/-! ## Claims on construction and on the cursors -/

/-- C7: where file creation succeeds, `NewDataFile(path, dataLen)` fails if and only if
`dataLen = 0`; the data file it returns has `DataLen() = dataLen`, `Rsn() = 0` and
`Wsn() = 0`, and `DataLen()` is still `dataLen` after any sequence of `Read` and
`Write` calls. -/
theorem NewDataFile_result (fs : FS) (path : String) (dataLen : Nat)
    (hc : fs.refuse path = none) :
    ((∃ err, (NewDataFile fs path dataLen).1 = Except.error err) ↔ dataLen = 0) ∧
      ((∃ df, (NewDataFile fs path dataLen).1 = Except.ok df) ↔ dataLen ≠ 0) ∧
      ∀ df, (NewDataFile fs path dataLen).1 = Except.ok df →
        DataLen df = dataLen ∧ Rsn df = some 0 ∧ Wsn df = some 0 ∧
          ∀ ops : List Op, DataLen (exec df ops) = dataLen := by
  refine ⟨?_, ?_, ?_⟩
  · constructor
    · rintro ⟨err, he⟩
      by_contra h0
      simp [NewDataFile, Create, hc, h0] at he
    · intro h0
      exact ⟨Err.New "Invalid data length!", by simp [NewDataFile, Create, hc, h0]⟩
  · constructor
    · rintro ⟨df, hdf⟩
      exact (NewDataFile_ok fs path dataLen df hdf).1
    · intro h0
      refine ⟨{ fresh dataLen with f := { bytes := [], pos := 0, fault := fs.fault path } }, ?_⟩
      simp only [NewDataFile, Create, hc, h0, if_false]
      rfl
  · intro df hdf
    obtain ⟨hd, hL, hw, hr⟩ := exec_cursors fs path dataLen df hdf []
    have hd' : df.dataLen = dataLen := hd
    refine ⟨hd, ?_, ?_, ?_⟩
    · have := Rsn_of_roffset df 0 (by rw [hd']; exact hL) (by simpa [exec, readCalls] using hr)
      simpa using this
    · have := Wsn_of_woffset df 0 (by rw [hd']; exact hL) (by simpa [exec, writeCalls] using hw)
      simpa using this
    · intro ops
      exact (exec_cursors fs path dataLen df hdf ops).1

/-- Witness of C7: block length 4 on a file system where creation succeeds; the calls
are a `Write`, a `Read` and a `Read` that finds no data. -/
theorem NewDataFile_result_witness :
    (NewDataFile emptyFS "log" 4).1 = Except.ok (fresh 4) ∧
      DataLen (fresh 4) = 4 ∧ Rsn (fresh 4) = some 0 ∧ Wsn (fresh 4) = some 0 ∧
      DataLen (exec (fresh 4) [Op.Write [1, 2, 3, 4], Op.Read, Op.Read]) = 4 :=
  have h := (NewDataFile_result emptyFS "log" 4 rfl).2.2 (fresh 4) rfl
  ⟨rfl, h.1, h.2.1, h.2.2.1, h.2.2.2 _⟩

/-- C8 as stated fails: on a file system whose path `log` holds three bytes,
`NewDataFile("log", 0)` does not leave the file at `log` as it was. -/
theorem NewDataFile_zero_changes_storage :
    ¬ ((NewDataFile logFS "log" 0).2.content "log" = logFS.content "log") := by
  decide

/-- C8 amended: where file creation succeeds, `NewDataFile(path, 0)` returns the
invalid-data-length error and no data file, and leaves an empty file at `path` (created
if it was absent, truncated to no bytes if it existed); every other path keeps its
content. -/
theorem NewDataFile_zero (fs : FS) (path : String) (hc : fs.refuse path = none) :
    (NewDataFile fs path 0).1 = Except.error (Err.New "Invalid data length!") ∧
      (NewDataFile fs path 0).2.content path = some [] ∧
      ∀ p : String, p ≠ path → (NewDataFile fs path 0).2.content p = fs.content p := by
  refine ⟨by simp [NewDataFile, Create, hc], by simp [NewDataFile, Create, hc], ?_⟩
  intro p hp
  simp [NewDataFile, Create, hc, hp]

/-- Witness of C8 amended: the path `log` of a file system where it holds three bytes. -/
theorem NewDataFile_zero_witness :
    (NewDataFile logFS "log" 0).1 = Except.error (Err.New "Invalid data length!") ∧
      (NewDataFile logFS "log" 0).2.content "log" = some [] :=
  have h := NewDataFile_zero logFS "log" rfl
  ⟨h.1, h.2.1⟩

/-- C1 (defect): on the data file `NewDataFile` builds for block length 4, the first
`Write` returns sequence number 0 and so does the second one, where C1 has it return
1; the write cursor has advanced by two blocks. -/
theorem Write_second_returns_zero :
    (NewDataFile emptyFS "log" 4).1 = Except.ok (fresh 4) ∧
      (Write (fresh 4) [1, 2, 3, 4]).1 = Outcome.returned (0, none) ∧
      (Write (Write (fresh 4) [1, 2, 3, 4]).2 [5, 6, 7, 8]).1 = Outcome.returned (0, none) ∧
      Wsn (Write (Write (fresh 4) [1, 2, 3, 4]).2 [5, 6, 7, 8]).2 = some 2 :=
  ⟨rfl, by decide⟩

/-- C9 (defect): `NewDataFile` builds the condition variable on the read side of the
file mutex; `Read` on the new data file takes the mutex for writing, finds no data and
waits, and the wait unlocks the read side of a mutex that no reader holds: the call
ends in the fatal error of the runtime, the mutex still held for writing. -/
theorem Read_wait_unlocks_other_side :
    (NewDataFile emptyFS "log" 4).1 = Except.ok (fresh 4) ∧
      (fresh 4).rcond.L = Locker.R ∧
      (fresh 4).fmutex.Lock = some { writer := true, readers := 0 } ∧
      (Read (fresh 4)).1 = Outcome.fatal "sync: RUnlock of unlocked RWMutex" ∧
      (Read (fresh 4)).2.fmutex = { writer := true, readers := 0 } :=
  ⟨rfl, by decide⟩

/-- C4 (defect): block length 4, after `Write` of the two bytes 1, 2 the slot of the
first `Read` is only partly in the file; the call does not wait for the rest: it ends
in the fatal error of the runtime. -/
theorem Read_absent_slot_aborts :
    (NewDataFile emptyFS "log" 4).1 = Except.ok (fresh 4) ∧
      (Write (fresh 4) [1, 2]).1 = Outcome.returned (0, none) ∧
      ¬ slotPresent (Write (fresh 4) [1, 2]).2.f (Write (fresh 4) [1, 2]).2.roffset 4 ∧
      (Read (Write (fresh 4) [1, 2]).2).1 = Outcome.fatal "sync: RUnlock of unlocked RWMutex" :=
  ⟨rfl, by decide⟩

/-! ## Sequences of calls: the file -/

theorem normalized_eq_take (dataLen : Nat) (d : Data) : normalized dataLen d = d.take dataLen := by
  unfold normalized
  split_ifs with h
  · rfl
  · exact (List.take_of_length_le (not_lt.mp h)).symm

theorem normalized_eq_take_min (dataLen : Nat) (d : Data) :
    normalized dataLen d = d.take (min d.length dataLen) := by
  rw [normalized_eq_take]
  rcases Nat.le_total d.length dataLen with h | h
  · rw [Nat.min_eq_left h, List.take_of_length_le h, List.take_of_length_le (le_refl _)]
  · rw [Nat.min_eq_right h]

theorem normalized_length (dataLen : Nat) (d : Data) :
    (normalized dataLen d).length = min d.length dataLen := by
  rw [normalized_eq_take, List.length_take, Nat.min_comm]

/-- The block `k` of a concatenation starts where the earlier blocks end. -/
theorem flatten_block {α : Type} (bs : List (List α)) (k : Nat) (hk : k < bs.length) :
    (bs.flatten.drop ((bs.take k).map List.length).sum).take (bs.get ⟨k, hk⟩).length
      = bs.get ⟨k, hk⟩ := by
  induction bs generalizing k with
  | nil => simp at hk
  | cons b bs ih =>
    cases k with
    | zero => simp
    | succ k =>
      have hk' : k < bs.length := by simpa using hk
      have := ih k hk'
      simp only [List.take_succ_cons, List.map_cons, List.sum_cons, List.flatten_cons,
        List.drop_append, List.get_cons_succ]
      simpa using this

theorem sum_length_blocks {α : Type} (bs : List (List α)) (n : Nat)
    (h : ∀ b ∈ bs, b.length = n) : (bs.map List.length).sum = bs.length * n := by
  induction bs with
  | nil => simp
  | cons b bs ih =>
    have hb : b.length = n := h b (List.mem_cons_self _ _)
    have := ih fun c hc => h c (List.mem_cons_of_mem _ hc)
    simp only [List.map_cons, List.sum_cons, List.length_cons, hb, this]
    ring

theorem exec_writes (df : myDataFile) (ps : List Data) (h : Ready df) :
    Ready (exec df (writes ps)) ∧
      (exec df (writes ps)).f.bytes = df.f.bytes ++ (ps.map (normalized df.dataLen)).flatten ∧
      (exec df (writes ps)).rcond.L = df.rcond.L ∧
      writesSucceed df (writes ps) = true := by
  induction ps generalizing df with
  | nil => exact ⟨h, by simp [exec, writes], rfl, rfl⟩
  | cons p ps ih =>
    have hw := Write_Ready df p h
    have hr : Ready (Write df p).2 := by
      rw [hw]
      exact ⟨h.1, rfl, by simp, h.2.2.2⟩
    obtain ⟨i1, i2, i3, i4⟩ := ih (Write df p).2 hr
    have e : exec df (writes (p :: ps)) = exec (Write df p).2 (writes ps) := rfl
    rw [e]
    refine ⟨i1, ?_, ?_, ?_⟩
    · rw [i2, hw]
      simp
    · rw [i3, hw]
      rfl
    · show ((match (Write df p).1 with
        | Outcome.returned (_, none) => true
        | _ => false) && writesSucceed (Write df p).2 (writes ps)) = true
      rw [i4, hw]
      rfl

theorem exec_reads (df : myDataFile) (k : Nat) (h : Ready df) (h0 : 0 ≤ df.roffset)
    (hs : df.roffset.toNat + k * df.dataLen ≤ df.f.bytes.length) :
    Ready (exec df (reads k)) ∧ (exec df (reads k)).f = df.f := by
  induction k generalizing df with
  | zero => exact ⟨h, rfl⟩
  | succ k ih =>
    have hp : slotPresent df.f df.roffset df.dataLen := by
      refine ⟨h0, ?_⟩
      have : (k + 1) * df.dataLen = k * df.dataLen + df.dataLen := by ring
      omega
    have hr := Read_Ready_present df h hp
    have hR : Ready (Read df).2 := by
      rw [hr]
      exact h
    have e : exec df (reads (k + 1)) = exec (Read df).2 (reads k) := rfl
    have hf : (Read df).2.f = df.f := Read_f df
    have hd : (Read df).2.dataLen = df.dataLen := Read_dataLen df
    have ho : (Read df).2.roffset = df.roffset + (df.dataLen : Int) := Read_roffset df
    have := ih (Read df).2 hR (by rw [ho]; omega) (by
      rw [ho, hf, hd]
      have : (k + 1) * df.dataLen = k * df.dataLen + df.dataLen := by ring
      omega)
    rw [e]
    exact ⟨this.1, by rw [this.2, hf]⟩

/-- The data file `NewDataFile` builds on a device that works is ready for calls. -/
theorem NewDataFile_Ready (fs : FS) (path : String) (dataLen : Nat) (df0 : myDataFile)
    (h : (NewDataFile fs path dataLen).1 = Except.ok df0) (hdev : fs.fault path = none) :
    Ready df0 ∧ df0.f.bytes = [] ∧ df0.dataLen = dataLen ∧ df0.roffset = 0 ∧
      df0.rcond.L = Locker.R := by
  obtain ⟨hL, _, hdf⟩ := NewDataFile_ok fs path dataLen df0 h
  subst hdf
  exact ⟨⟨rfl, hdev, rfl, hL⟩, rfl, rfl, rfl, rfl⟩

theorem readCalls_writes (ps : List Data) : readCalls (writes ps) = 0 := by
  induction ps with
  | nil => rfl
  | cons p ps ih => simpa [writes, readCalls] using ih

theorem readCalls_reads (k : Nat) : readCalls (reads k) = k := by
  induction k with
  | zero => rfl
  | succ k ih => simpa [reads, readCalls, List.replicate_succ] using ih

/-- The file after the payloads `ps` were written to a new data file, and the state the
`k`-th `Read` starts from. -/
theorem exec_writes_reads (fs : FS) (path : String) (dataLen : Nat) (df0 : myDataFile)
    (ps : List Data) (h : (NewDataFile fs path dataLen).1 = Except.ok df0)
    (hdev : fs.fault path = none) :
    Ready (exec df0 (writes ps)) ∧
      (exec df0 (writes ps)).f.bytes = (ps.map (normalized dataLen)).flatten ∧
      (exec df0 (writes ps)).f.pos = (exec df0 (writes ps)).f.bytes.length ∧
      writesSucceed df0 (writes ps) = true ∧
      ∀ k : Nat, k * dataLen ≤ (exec df0 (writes ps)).f.bytes.length →
        Ready (exec df0 (writes ps ++ reads k)) ∧
          (exec df0 (writes ps ++ reads k)).f = (exec df0 (writes ps)).f ∧
          (exec df0 (writes ps ++ reads k)).roffset = (k : Int) * (dataLen : Int) ∧
          (exec df0 (writes ps ++ reads k)).dataLen = dataLen := by
  obtain ⟨hR, hb, hd, hro, _⟩ := NewDataFile_Ready fs path dataLen df0 h hdev
  obtain ⟨w1, w2, _, w4⟩ := exec_writes df0 ps hR
  have hr0 : (exec df0 (writes ps)).roffset = 0 := by
    rw [exec_roffset, readCalls_writes, hro]
    simp
  have hdl : (exec df0 (writes ps)).dataLen = dataLen := by rw [exec_dataLen, hd]
  refine ⟨w1, by rw [w2, hb, hd]; rfl, w1.2.2.1, w4, ?_⟩
  intro k hk
  have hx := exec_reads (exec df0 (writes ps)) k w1 (by rw [hr0]) (by
    rw [hr0, hdl]
    simpa using hk)
  rw [exec_append]
  refine ⟨hx.1, hx.2, ?_, by rw [exec_dataLen, hdl]⟩
  rw [exec_roffset, readCalls_reads, hr0, hdl]
  simp

/-- C2: after payloads of at least `dataLen` bytes each were written in order to a new
data file on a device that works, the `k`-th `Read` returns sequence number `k`, a nil
error and a block of exactly `dataLen` bytes, the first `dataLen` bytes of payload
`k`. -/
theorem write_read_round_trip (fs : FS) (path : String) (dataLen : Nat) (df0 : myDataFile)
    (ps : List Data) (h : (NewDataFile fs path dataLen).1 = Except.ok df0)
    (hdev : fs.fault path = none) (hlen : ∀ p ∈ ps, dataLen ≤ p.length)
    (k : Nat) (hk : k < ps.length) :
    writesSucceed df0 (writes ps) = true ∧
      (Read (exec df0 (writes ps ++ reads k))).1 =
        Outcome.returned ((k : Int), some ((ps.get ⟨k, hk⟩).take dataLen), none) ∧
      ((ps.get ⟨k, hk⟩).take dataLen).length = dataLen := by
  obtain ⟨_, e2, _, e4, e5⟩ := exec_writes_reads fs path dataLen df0 ps h hdev
  have hL : dataLen ≠ 0 := (NewDataFile_ok fs path dataLen df0 h).1
  have hblk : ∀ b ∈ ps.map (normalized dataLen), b.length = dataLen := by
    intro b hb
    obtain ⟨p, hp, rfl⟩ := List.mem_map.mp hb
    rw [normalized_length]
    exact Nat.min_eq_right (hlen p hp)
  have hsum : ∀ j : Nat, (((ps.map (normalized dataLen)).take j).map List.length).sum
      = ((ps.map (normalized dataLen)).take j).length * dataLen := fun j =>
    sum_length_blocks _ dataLen fun b hb => hblk b (List.mem_of_mem_take hb)
  have hlenB : (exec df0 (writes ps)).f.bytes.length = ps.length * dataLen := by
    rw [e2, List.length_flatten, sum_length_blocks _ dataLen hblk, List.length_map]
  have hkL : (k + 1) * dataLen ≤ ps.length * dataLen := Nat.mul_le_mul_right _ hk
  obtain ⟨r1, r2, r3, r4⟩ := e5 k (by
    rw [hlenB]
    exact Nat.mul_le_mul_right _ (Nat.le_of_lt hk))
  have hkn : ((k : Int) * (dataLen : Int)).toNat = k * dataLen := by
    have : ((k : Int) * (dataLen : Int)) = ((k * dataLen : Nat) : Int) := by push_cast; ring
    rw [this, Int.toNat_ofNat]
  have hpres : slotPresent (exec df0 (writes ps ++ reads k)).f
      (exec df0 (writes ps ++ reads k)).roffset (exec df0 (writes ps ++ reads k)).dataLen := by
    refine ⟨by rw [r3]; positivity, ?_⟩
    rw [r2, r3, r4, hkn, hlenB]
    have : (k + 1) * dataLen = k * dataLen + dataLen := by ring
    omega
  have hkB : k < (ps.map (normalized dataLen)).length := by simpa using hk
  have hget : (ps.map (normalized dataLen)).get ⟨k, hkB⟩ = (ps.get ⟨k, hk⟩).take dataLen := by
    simp [normalized_eq_take]
  have hblock := flatten_block (ps.map (normalized dataLen)) k hkB
  have hmin : ((ps.map (normalized dataLen)).take k).length = k := by
    rw [List.length_take, List.length_map]
    exact Nat.min_eq_left (Nat.le_of_lt hk)
  rw [hget, hsum k, hmin] at hblock
  have hlk : ((ps.get ⟨k, hk⟩).take dataLen).length = dataLen := by
    rw [List.length_take]
    exact Nat.min_eq_left (hlen _ (List.get_mem _ _ _))
  rw [hlk] at hblock
  refine ⟨e4, ?_, hlk⟩
  rw [Read_Ready_present _ r1 hpres, r2, r3, r4, hkn, e2, hblock,
    Int.mul_tdiv_cancel _ (by exact_mod_cast hL)]

/-- Witness of C2: block length 4, `Write` of 1, 2, 3, 4 and of 5, 6, 7, 8, 9; the second
`Read` returns sequence number 1 and the block 5, 6, 7, 8. -/
theorem write_read_round_trip_witness :
    (Read (exec (fresh 4) (writes [[1, 2, 3, 4], [5, 6, 7, 8, 9]] ++ reads 1))).1 =
      Outcome.returned (1, some [5, 6, 7, 8], none) :=
  (write_read_round_trip emptyFS "log" 4 (fresh 4) [[1, 2, 3, 4], [5, 6, 7, 8, 9]] rfl rfl
    (by decide) 1 (by decide)).2.1

/-- C3 (defect): block length 4, `Write` of the two bytes 1, 2 and then `Write` of
3, 4, 5, 6.  The second call allocates offset 4, the write cursor before it, and its
payload is not stored at byte offset 4: the unpositioned write appends it at byte 2, the
file is 1, 2, 3, 4, 5, 6 and the first `Read` returns the block 1, 2, 3, 4, which mixes the
two payloads. -/
theorem Write_not_at_allocated_offset :
    (NewDataFile emptyFS "log" 4).1 = Except.ok (fresh 4) ∧
      (Write (fresh 4) [1, 2]).2.woffset = 1 * 4 ∧
      ¬ storedAt (exec (fresh 4) (writes [[1, 2], [3, 4, 5, 6]])).f (1 * 4)
          (normalized 4 [3, 4, 5, 6]) ∧
      storedAt (exec (fresh 4) (writes [[1, 2], [3, 4, 5, 6]])).f 2 (normalized 4 [3, 4, 5, 6]) ∧
      (exec (fresh 4) (writes [[1, 2], [3, 4, 5, 6]])).f.bytes = [1, 2, 3, 4, 5, 6] ∧
      (Read (exec (fresh 4) (writes [[1, 2], [3, 4, 5, 6]]))).1
        = Outcome.returned (0, some [1, 2, 3, 4], none) :=
  ⟨rfl, by decide⟩

/-- Where `Write` stores: on a new data file whose device works every `Write` succeeds,
and the bytes of payload `k`, cut to at most `dataLen` bytes, lie in the file from the
position the file descriptor had before that call, the total length of the earlier
payloads as cut; that position is `k * dataLen` when each earlier payload has at least
`dataLen` bytes. -/
theorem Write_stores_at_descriptor_position (fs : FS) (path : String) (dataLen : Nat)
    (df0 : myDataFile) (ps : List Data) (h : (NewDataFile fs path dataLen).1 = Except.ok df0)
    (hdev : fs.fault path = none) (k : Nat) (hk : k < ps.length) :
    writesSucceed df0 (writes ps) = true ∧
      (exec df0 (writes (ps.take k))).f.pos
        = ((ps.take k).map fun p => min p.length dataLen).sum ∧
      storedAt (exec df0 (writes ps)).f (exec df0 (writes (ps.take k))).f.pos
        (normalized dataLen (ps.get ⟨k, hk⟩)) ∧
      ((∀ p ∈ ps.take k, dataLen ≤ p.length) →
        (exec df0 (writes (ps.take k))).f.pos = k * dataLen) := by
  obtain ⟨_, e2, _, e4, _⟩ := exec_writes_reads fs path dataLen df0 ps h hdev
  obtain ⟨_, t2, t3, _, _⟩ := exec_writes_reads fs path dataLen df0 (ps.take k) h hdev
  have hpos : (exec df0 (writes (ps.take k))).f.pos
      = (((ps.map (normalized dataLen)).take k).map List.length).sum := by
    rw [t3, t2, List.length_flatten, List.map_take]
  have hkB : k < (ps.map (normalized dataLen)).length := by simpa using hk
  have hget : (ps.map (normalized dataLen)).get ⟨k, hkB⟩ = normalized dataLen (ps.get ⟨k, hk⟩) := by
    simp
  have hblock := flatten_block (ps.map (normalized dataLen)) k hkB
  rw [hget, ← hpos, ← e2] at hblock
  have hsum : (exec df0 (writes (ps.take k))).f.pos
      = ((ps.take k).map fun p => min p.length dataLen).sum := by
    rw [hpos, ← List.map_take, List.map_map]
    congr 1
    apply List.map_congr_left
    intro p _
    exact normalized_length dataLen p
  refine ⟨e4, hsum, hblock, ?_⟩
  intro hlen
  rw [hsum]
  have : ∀ qs : List Data, (∀ p ∈ qs, dataLen ≤ p.length) →
      (qs.map fun p => min p.length dataLen).sum = qs.length * dataLen := by
    intro qs hq
    induction qs with
    | nil => simp
    | cons q qs ih =>
      have h1 : min q.length dataLen = dataLen := Nat.min_eq_right (hq q (List.mem_cons_self _ _))
      have h2 := ih fun p hp => hq p (List.mem_cons_of_mem _ hp)
      simp only [List.map_cons, List.sum_cons, List.length_cons, h1, h2]
      ring
  rw [this _ hlen, List.length_take, Nat.min_eq_left (Nat.le_of_lt hk)]

/-- A `Write` that returns leaves behind the file its unpositioned write produced. -/
theorem Write_returned_f (df : myDataFile) (d : Data) (wsn : Int) (err : Option Err)
    (h : (Write df d).1 = Outcome.returned (wsn, err)) :
    (Write df d).2.f = (df.f.Write (normalized df.dataLen d)).2 ∧
      err = (df.f.Write (normalized df.dataLen d)).1.2 := by
  unfold Write at h ⊢
  simp only at h ⊢
  by_cases hL : df.dataLen = 0
  · simp [hL] at h
  · simp only [hL, if_false] at h ⊢
    cases hl : df.fmutex.Lock with
    | none => simp [hl] at h
    | some held =>
      simp only [hl] at h ⊢
      cases hu : held.Unlock with
      | error msg => simp [hu] at h
      | ok rw =>
        simp only [hu, Outcome.returned.injEq, Prod.mk.injEq] at h ⊢
        exact ⟨trivial, h.2.symm⟩

/-- Along calls whose `Write`s all return with a nil error, the file is the
concatenation of the payloads as cut, and the descriptor stands at its end. -/
theorem exec_file (df : myDataFile) (ops : List Op) (hf : df.f.fault = none)
    (hp : df.f.pos = df.f.bytes.length) (hw : writesSucceed df ops = true) :
    (exec df ops).f.bytes
        = df.f.bytes ++ ((payloads ops).map (normalized df.dataLen)).flatten ∧
      (exec df ops).f.pos = (exec df ops).f.bytes.length ∧ (exec df ops).f.fault = none := by
  induction ops generalizing df with
  | nil => simp [exec, payloads, hp, hf]
  | cons op ops ih =>
    cases op with
    | Read =>
      have e : exec df (Op.Read :: ops) = exec (Read df).2 ops := rfl
      have hfile : (Read df).2.f = df.f := Read_f df
      have := ih (Read df).2 (by rw [hfile]; exact hf) (by rw [hfile]; exact hp) hw
      rw [e]
      rw [hfile, Read_dataLen] at this
      exact this
    | Write d =>
      have e : exec df (Op.Write d :: ops) = exec (Write df d).2 ops := rfl
      have hw' : ((match (Write df d).1 with
          | Outcome.returned (_, none) => true
          | _ => false) && writesSucceed (Write df d).2 ops) = true := hw
      rw [Bool.and_eq_true] at hw'
      obtain ⟨h1, h2⟩ := hw'
      have hret : ∃ wsn, (Write df d).1 = Outcome.returned (wsn, none) := by
        split at h1
        · rename_i wsn heq
          exact ⟨wsn, heq⟩
        · simp at h1
      obtain ⟨wsn, hret⟩ := hret
      have hfile : (Write df d).2.f =
          File.mk (df.f.bytes ++ normalized df.dataLen d)
            (df.f.bytes.length + (normalized df.dataLen d).length) none := by
        rw [(Write_returned_f df d wsn none hret).1, File_Write_end df.f _ hf hp]
      have := ih (Write df d).2 (by rw [hfile]) (by rw [hfile]; simp) h2
      rw [e]
      rw [hfile, Write_dataLen] at this
      refine ⟨?_, this.2⟩
      rw [this.1]
      simp [payloads]

/-- C10: on a new data file whose device works, along any sequence of `Write` calls
that succeed and `Read` calls in between, the file is the concatenation, in call order,
of the payloads cut to `min (len p) dataLen` bytes; a further `Write` that succeeds keeps
the stored bytes and appends exactly `min (len p) dataLen` bytes of its payload, and a
further `Read` changes neither the file (bytes and descriptor position) nor the write
offset. -/
theorem file_is_concatenation (fs : FS) (path : String) (dataLen : Nat) (df0 : myDataFile)
    (h : (NewDataFile fs path dataLen).1 = Except.ok df0) (hdev : fs.fault path = none)
    (ops : List Op) (hw : writesSucceed df0 ops = true) :
    (exec df0 ops).f.bytes
        = ((payloads ops).map fun p => p.take (min p.length dataLen)).flatten ∧
      (∀ (d : Data) (wsn : Int), (Write (exec df0 ops) d).1 = Outcome.returned (wsn, none) →
        (Write (exec df0 ops) d).2.f.bytes
            = (exec df0 ops).f.bytes ++ d.take (min d.length dataLen) ∧
          (Write (exec df0 ops) d).2.f.bytes.length
            = (exec df0 ops).f.bytes.length + min d.length dataLen) ∧
      (Read (exec df0 ops)).2.f = (exec df0 ops).f ∧
      (Read (exec df0 ops)).2.woffset = (exec df0 ops).woffset := by
  obtain ⟨hR, hb, hd, _, _⟩ := NewDataFile_Ready fs path dataLen df0 h hdev
  obtain ⟨x1, x2, x3⟩ := exec_file df0 ops hR.2.1 hR.2.2.1 hw
  have hfun : (fun p : Data => p.take (min p.length dataLen)) = normalized dataLen := by
    funext p
    exact (normalized_eq_take_min dataLen p).symm
  refine ⟨?_, ?_, Read_f _, Read_woffset _⟩
  · rw [x1, hb, hd, hfun]
    rfl
  · intro d wsn hret
    have hfile := (Write_returned_f (exec df0 ops) d wsn none hret).1
    rw [File_Write_end _ _ x3 x2, exec_dataLen, hd] at hfile
    rw [hfile, ← normalized_eq_take_min]
    exact ⟨rfl, by simp [normalized_length]⟩

/-- Witness of C10: block length 4, three `Write` calls (4, 5 and 1 bytes) with a `Read`
after each; the file holds the nine bytes kept. -/
theorem file_is_concatenation_witness :
    (exec (fresh 4)
        [Op.Write [1, 2, 3, 4], Op.Read, Op.Write [5, 6, 7, 8, 9], Op.Read, Op.Write [9],
          Op.Read]).f.bytes = [1, 2, 3, 4, 5, 6, 7, 8, 9] :=
  (file_is_concatenation emptyFS "log" 4 (fresh 4) rfl rfl
    [Op.Write [1, 2, 3, 4], Op.Read, Op.Write [5, 6, 7, 8, 9], Op.Read, Op.Write [9], Op.Read]
    (by decide)).1

/-! ## What `Read` returns -/

/-- Whatever the state of the data file, `Read` never returns `io.EOF`; when it returns
a nil error the file held the whole slot at the read offset and the block returned is
that slot; when the slot is not fully in the file and the device works, `Read` does not
return. -/
theorem Read_returned_sound (df : myDataFile) (rsn : Int) (d : Option Data) (err : Option Err)
    (h : (Read df).1 = Outcome.returned (rsn, d, err)) :
    err ≠ some Err.EOF ∧ rsn = df.roffset.tdiv (df.dataLen : Int) ∧
      (err = none →
        d = some ((df.f.bytes.drop df.roffset.toNat).take df.dataLen) ∧
          (df.dataLen ≠ 0 → slotPresent df.f df.roffset df.dataLen)) := by
  unfold Read at h
  simp only [allocate_fst, allocate_snd] at h
  by_cases hL : df.dataLen = 0
  · simp [hL] at h
  · simp only [hL, if_false] at h
    cases hl : df.fmutex.Lock with
    | none => simp [hl] at h
    | some held =>
      simp only [hl] at h
      have hu : ∃ rw, held.Unlock = Except.ok rw := by
        unfold RWMutex.Lock at hl
        split_ifs at hl
        injection hl with hl
        subst hl
        exact ⟨_, rfl⟩
      obtain ⟨rw, hu⟩ := hu
      unfold File.ReadAt at h
      by_cases hneg : df.roffset < 0
      · simp only [hneg, if_true, hu, Outcome.returned.injEq, Prod.mk.injEq] at h
        obtain ⟨h1, h2, h3⟩ := h
        subst h3
        exact ⟨by simp, h1.symm, by simp⟩
      · simp only [hneg, if_false] at h
        cases hfault : df.f.fault with
        | some msg =>
          simp only [hfault, hu, Outcome.returned.injEq, Prod.mk.injEq] at h
          obtain ⟨h1, h2, h3⟩ := h
          subst h3
          exact ⟨by simp, h1.symm, by simp⟩
        | none =>
          simp only [hfault, List.length_replicate] at h
          by_cases hshort : ((df.f.bytes.drop df.roffset.toNat).take df.dataLen).length < df.dataLen
          · simp only [hshort, if_true] at h
            simp only [Cond.Wait] at h
            cases hw : df.rcond.L.Unlock held <;> simp [hw] at h
          · simp only [hshort, if_false, hu, Outcome.returned.injEq, Prod.mk.injEq] at h
            obtain ⟨h1, h2, h3⟩ := h
            subst h3
            refine ⟨by simp, h1.symm, fun _ => ⟨h2.symm, fun _ => ⟨not_lt.mp hneg, ?_⟩⟩⟩
            simp only [List.length_take, List.length_drop] at hshort
            omega

/-! ## The allocation loop under interleaving -/

theorem filterMap_set_none {α β : Type} (f : α → Option β) (l : List α) (i : Nat) (a b : α)
    (hi : l[i]? = some a) (ha : f a = none) (hb : f b = none) :
    (l.set i b).filterMap f = l.filterMap f := by
  induction l generalizing i with
  | nil => simp at hi
  | cons x xs ih =>
    cases i with
    | zero =>
      simp only [List.getElem?_cons_zero, Option.some.injEq] at hi
      subst hi
      simp [List.filterMap_cons, ha, hb]
    | succ i =>
      simp only [List.getElem?_cons_succ] at hi
      simp [List.filterMap_cons, ih i hi]

theorem filterMap_set_some {α β : Type} (f : α → Option β) (l : List α) (i : Nat) (a b : α)
    (v : β) (hi : l[i]? = some a) (ha : f a = none) (hb : f b = some v) :
    ((l.set i b).filterMap f).Perm (v :: l.filterMap f) := by
  induction l generalizing i with
  | nil => simp at hi
  | cons x xs ih =>
    cases i with
    | zero =>
      simp only [List.getElem?_cons_zero, Option.some.injEq] at hi
      subst hi
      simp [List.filterMap_cons, ha, hb]
    | succ i =>
      simp only [List.getElem?_cons_succ] at hi
      have := ih i hi
      simp only [List.set_cons_succ, List.filterMap_cons]
      cases hx : f x with
      | none => simpa using this
      | some w =>
        simp only
        exact (List.Perm.cons w this).trans (List.Perm.swap v w _)

theorem sum_map_set {α : Type} (g : α → Nat) (l : List α) (i : Nat) (a b : α)
    (hi : l[i]? = some a) : ((l.set i b).map g).sum + g a = (l.map g).sum + g b := by
  induction l generalizing i with
  | nil => simp at hi
  | cons x xs ih =>
    cases i with
    | zero =>
      simp only [List.getElem?_cons_zero, Option.some.injEq] at hi
      subst hi
      simp only [List.set_cons_zero, List.map_cons, List.sum_cons]
      omega
    | succ i =>
      simp only [List.getElem?_cons_succ] at hi
      have := ih i hi
      simp only [List.set_cons_succ, List.map_cons, List.sum_cons]
      omega

theorem weight_le (n : Nat) (c c1 : Int) (pc : AllocPc) :
    pc.weight n c1 ≤ pc.weight n c + 2 := by
  cases pc with
  | load => simp [AllocPc.weight]
  | cas v =>
    simp only [AllocPc.weight]
    split_ifs <;> omega
  | done v => simp [AllocPc.weight]

theorem sum_weight_le (n : Nat) (c c1 : Int) (l : List AllocPc) :
    (l.map (AllocPc.weight n c1)).sum ≤ (l.map (AllocPc.weight n c)).sum + 2 * l.length := by
  induction l with
  | nil => simp
  | cons x xs ih =>
    have := weight_le n c c1 x
    simp only [List.map_cons, List.sum_cons, List.length_cons]
    omega

theorem step_load (dataLen : Nat) (s : AllocSys) (i : Nat) (h : s.pcs[i]? = some AllocPc.load) :
    s.step dataLen i = { cursor := s.cursor, pcs := s.pcs.set i (AllocPc.cas s.cursor) } := by
  simp [AllocSys.step, h, LoadInt64]

theorem step_cas_hit (dataLen : Nat) (s : AllocSys) (i : Nat) (v : Int)
    (h : s.pcs[i]? = some (AllocPc.cas v)) (hv : s.cursor = v) :
    s.step dataLen i
      = { cursor := v + (dataLen : Int), pcs := s.pcs.set i (AllocPc.done v) } := by
  simp [AllocSys.step, h, CompareAndSwapInt64, hv]

theorem step_cas_miss (dataLen : Nat) (s : AllocSys) (i : Nat) (v : Int)
    (h : s.pcs[i]? = some (AllocPc.cas v)) (hv : s.cursor ≠ v) :
    s.step dataLen i = { cursor := s.cursor, pcs := s.pcs.set i AllocPc.load } := by
  simp [AllocSys.step, h, CompareAndSwapInt64, hv]

theorem step_not_live (dataLen : Nat) (s : AllocSys) (i : Nat) (h : s.live i = false) :
    s.step dataLen i = s := by
  unfold AllocSys.live at h
  unfold AllocSys.step
  split at h <;> simp_all

theorem step_length (dataLen : Nat) (s : AllocSys) (i : Nat) :
    (s.step dataLen i).pcs.length = s.pcs.length := by
  unfold AllocSys.step
  repeat' split
  all_goals simp

theorem run_length (dataLen : Nat) (s : AllocSys) (sched : List Nat) :
    (s.run dataLen sched).pcs.length = s.pcs.length := by
  induction sched generalizing s with
  | nil => rfl
  | cons i sched ih =>
    show ((s.step dataLen i).run dataLen sched).pcs.length = s.pcs.length
    rw [ih, step_length]

/-- A step of a goroutine still in its loop lowers the potential. -/
theorem step_potential (dataLen : Nat) (s : AllocSys) (i : Nat) (h : s.live i = true) :
    (s.step dataLen i).potential < s.potential := by
  unfold AllocSys.live at h
  cases hi : s.pcs[i]? with
  | none => simp [hi] at h
  | some pc =>
    cases pc with
    | load =>
      rw [step_load dataLen s i hi]
      have := sum_map_set (AllocPc.weight s.pcs.length s.cursor) s.pcs i _
        (AllocPc.cas s.cursor) hi
      simp only [AllocSys.potential, List.length_set]
      simp only [AllocPc.weight, if_true] at this
      omega
    | cas v =>
      by_cases hv : s.cursor = v
      · rw [step_cas_hit dataLen s i v hi hv]
        have h1 := sum_map_set (AllocPc.weight s.pcs.length s.cursor) s.pcs i _
          (AllocPc.done v) hi
        have h2 := sum_weight_le s.pcs.length s.cursor (v + (dataLen : Int))
          (s.pcs.set i (AllocPc.done v))
        simp only [AllocSys.potential, List.length_set] at h2 ⊢
        simp only [AllocPc.weight, hv, if_true] at h1
        rw [hv] at h2 ⊢
        omega
      · rw [step_cas_miss dataLen s i v hi hv]
        have := sum_map_set (AllocPc.weight s.pcs.length s.cursor) s.pcs i _
          AllocPc.load hi
        simp only [AllocSys.potential, List.length_set]
        simp only [AllocPc.weight, if_neg (Ne.symm hv)] at this
        omega
    | done v => simp [hi] at h

/-- An interleaving in which only goroutines still in their loops step is no longer
than the potential it starts from. -/
theorem effective_length (dataLen : Nat) (s : AllocSys) (sched : List Nat)
    (h : AllocSys.effective dataLen s sched = true) :
    sched.length + (s.run dataLen sched).potential ≤ s.potential := by
  induction sched generalizing s with
  | nil => simp [AllocSys.run]
  | cons i sched ih =>
    have h' : (s.live i && AllocSys.effective dataLen (s.step dataLen i) sched) = true := h
    rw [Bool.and_eq_true] at h'
    have h1 := step_potential dataLen s i h'.1
    have h2 := ih (s.step dataLen i) h'.2
    have e : s.run dataLen (i :: sched) = (s.step dataLen i).run dataLen sched := rfl
    rw [e, List.length_cons]
    omega

theorem potential_init (n : Nat) : (AllocSys.init n).potential = n * (2 * n + 2) := by
  simp [AllocSys.potential, AllocSys.init, AllocPc.weight]


/-- The offsets handed out so far are the first multiples of `dataLen`, one each, and
the cursor is the next one: kept by every step of every goroutine. -/
theorem step_exclusive (dataLen : Nat) (s : AllocSys) (i : Nat)
    (hc : s.cursor = (s.offsets.length : Int) * (dataLen : Int))
    (hp : s.offsets.Perm (multiples dataLen s.offsets.length)) :
    (s.step dataLen i).cursor = ((s.step dataLen i).offsets.length : Int) * (dataLen : Int) ∧
      (s.step dataLen i).offsets.Perm (multiples dataLen (s.step dataLen i).offsets.length) := by
  cases hi : s.pcs[i]? with
  | none =>
    rw [step_not_live dataLen s i (by simp [AllocSys.live, hi])]
    exact ⟨hc, hp⟩
  | some pc =>
    cases pc with
    | load =>
      have e : (s.step dataLen i).offsets = s.offsets := by
        rw [step_load dataLen s i hi]
        exact filterMap_set_none AllocPc.held s.pcs i _ _ hi rfl rfl
      have ec : (s.step dataLen i).cursor = s.cursor := by rw [step_load dataLen s i hi]
      rw [e, ec]
      exact ⟨hc, hp⟩
    | cas v =>
      by_cases hv : s.cursor = v
      · have e : (s.step dataLen i).offsets.Perm (v :: s.offsets) := by
          rw [step_cas_hit dataLen s i v hi hv]
          exact filterMap_set_some AllocPc.held s.pcs i _ _ v hi rfl rfl
        have ec : (s.step dataLen i).cursor = v + (dataLen : Int) := by
          rw [step_cas_hit dataLen s i v hi hv]
        have el : (s.step dataLen i).offsets.length = s.offsets.length + 1 := by
          rw [e.length_eq, List.length_cons]
        rw [el, ec]
        refine ⟨?_, ?_⟩
        · rw [← hv, hc]
          push_cast
          ring
        · refine e.trans ?_
          unfold multiples at hp ⊢
          rw [List.range_succ, List.map_append, List.map_singleton]
          refine (List.Perm.cons v hp).trans ?_
          rw [← hv, hc]
          exact (List.perm_append_singleton _ _).symm
      · have e : (s.step dataLen i).offsets = s.offsets := by
          rw [step_cas_miss dataLen s i v hi hv]
          exact filterMap_set_none AllocPc.held s.pcs i _ _ hi rfl rfl
        have ec : (s.step dataLen i).cursor = s.cursor := by
          rw [step_cas_miss dataLen s i v hi hv]
        rw [e, ec]
        exact ⟨hc, hp⟩
    | done v =>
      rw [step_not_live dataLen s i (by simp [AllocSys.live, hi])]
      exact ⟨hc, hp⟩

theorem run_exclusive (dataLen : Nat) (s : AllocSys) (sched : List Nat)
    (hc : s.cursor = (s.offsets.length : Int) * (dataLen : Int))
    (hp : s.offsets.Perm (multiples dataLen s.offsets.length)) :
    (s.run dataLen sched).cursor = ((s.run dataLen sched).offsets.length : Int) * (dataLen : Int) ∧
      (s.run dataLen sched).offsets.Perm (multiples dataLen (s.run dataLen sched).offsets.length) := by
  induction sched generalizing s with
  | nil => exact ⟨hc, hp⟩
  | cons i sched ih =>
    obtain ⟨h1, h2⟩ := step_exclusive dataLen s i hc hp
    exact ih (s.step dataLen i) h1 h2

theorem multiples_nodup (dataLen : Nat) (hL : 0 < dataLen) (n : Nat) :
    (multiples dataLen n).Nodup := by
  refine List.Nodup.map ?_ (List.nodup_range n)
  intro a b hab
  have hL' : (dataLen : Int) ≠ 0 := by exact_mod_cast Nat.pos_iff_ne_zero.mp hL
  have := mul_right_cancel₀ hL' hab
  exact_mod_cast this

theorem multiples_tdiv (dataLen : Nat) (hL : 0 < dataLen) (n : Nat) :
    (multiples dataLen n).map (fun o : Int => o.tdiv (dataLen : Int)) = seqNumbers n := by
  have hL' : (dataLen : Int) ≠ 0 := by exact_mod_cast Nat.pos_iff_ne_zero.mp hL
  unfold multiples seqNumbers
  rw [List.map_map]
  apply List.map_congr_left
  intro k _
  show ((k : Int) * (dataLen : Int)).tdiv (dataLen : Int) = (k : Int)
  exact Int.mul_tdiv_cancel _ hL'

theorem allDone_offsets (s : AllocSys) (h : s.allDone = true) :
    s.offsets.length = s.pcs.length := by
  unfold AllocSys.allDone at h
  unfold AllocSys.offsets
  generalize s.pcs = pcs at h
  induction pcs with
  | nil => rfl
  | cons pc pcs ih =>
    simp only [List.all_cons, Bool.and_eq_true] at h
    obtain ⟨v, hv⟩ := Option.isSome_iff_exists.mp h.1
    simp [List.filterMap_cons, hv, ih h.2]

theorem not_allDone_live (s : AllocSys) (h : s.allDone = false) :
    ∃ i, i < s.pcs.length ∧ s.live i = true := by
  unfold AllocSys.allDone at h
  unfold AllocSys.live
  generalize s.pcs = pcs at h
  induction pcs with
  | nil => simp at h
  | cons pc pcs ih =>
    cases pc with
    | load => exact ⟨0, by simp, by simp⟩
    | cas v => exact ⟨0, by simp, by simp⟩
    | done v =>
      have h' : (pcs.all fun pc => pc.held.isSome) = false := by
        simpa [AllocPc.held] using h
      obtain ⟨i, hi, hl⟩ := ih h'
      exact ⟨i + 1, by simpa using hi, by simpa using hl⟩

/-- Run alone, a goroutine leaves the loop after its load and its swap with the offset
and the cursor that `allocate` gives. -/
theorem allocate_eq_run (cursor : Int) (dataLen : Nat) :
    AllocSys.run dataLen { cursor := cursor, pcs := [AllocPc.load] } [0, 0]
      = { cursor := (allocate cursor dataLen).2,
          pcs := [AllocPc.done (allocate cursor dataLen).1] } := by
  simp [AllocSys.run, AllocSys.step, allocate, CompareAndSwapInt64, LoadInt64]


theorem readers_fresh (fs : FS) (path : String) (dataLen : Nat) (df0 : myDataFile)
    (h : (NewDataFile fs path dataLen).1 = Except.ok df0) (n : Nat) :
    AllocSys.readers df0 n = AllocSys.init n ∧ df0.dataLen = dataLen ∧ 0 < dataLen := by
  obtain ⟨hL, _, hdf⟩ := NewDataFile_ok fs path dataLen df0 h
  subst hdf
  exact ⟨rfl, rfl, Nat.pos_of_ne_zero hL⟩

/-- The interleavings of `n` calls on a cursor at 0, for a block length `dataLen > 0`. -/
theorem init_exclusive (dataLen : Nat) (hL : 0 < dataLen) (n : Nat) (sched : List Nat) :
    ((AllocSys.run dataLen (AllocSys.init n) sched).offsets.Nodup ∧
        (AllocSys.run dataLen (AllocSys.init n) sched).offsets.Perm
          (multiples dataLen (AllocSys.run dataLen (AllocSys.init n) sched).offsets.length)) ∧
      (AllocSys.effective dataLen (AllocSys.init n) sched = true →
        sched.length ≤ n * (2 * n + 2)) ∧
      ((AllocSys.run dataLen (AllocSys.init n) sched).allDone = false →
        ∃ i, i < n ∧ (AllocSys.run dataLen (AllocSys.init n) sched).live i = true) ∧
      ((AllocSys.run dataLen (AllocSys.init n) sched).allDone = true →
        (AllocSys.run dataLen (AllocSys.init n) sched).offsets.length = n ∧
          (AllocSys.run dataLen (AllocSys.init n) sched).offsets.Perm (multiples dataLen n) ∧
          ((AllocSys.run dataLen (AllocSys.init n) sched).offsets.map
            fun o : Int => o.tdiv (dataLen : Int)).Perm (seqNumbers n)) := by
  have hinit0 : (AllocSys.init n).offsets = [] := by
    simp [AllocSys.offsets, AllocSys.init, List.filterMap_replicate, AllocPc.held]
  obtain ⟨_, hp⟩ := run_exclusive dataLen (AllocSys.init n) sched
    (by rw [hinit0]; simp [AllocSys.init]) (by rw [hinit0]; simp [multiples])
  have hlen : (AllocSys.run dataLen (AllocSys.init n) sched).pcs.length = n := by
    rw [run_length]
    simp [AllocSys.init]
  refine ⟨⟨(hp.nodup_iff).mpr (multiples_nodup dataLen hL _), hp⟩, ?_, ?_, ?_⟩
  · intro he
    have := effective_length dataLen (AllocSys.init n) sched he
    rw [potential_init] at this
    omega
  · intro hnd
    obtain ⟨i, hi, hl⟩ := not_allDone_live _ hnd
    exact ⟨i, by rw [hlen] at hi; exact hi, hl⟩
  · intro hd
    have hn : (AllocSys.run dataLen (AllocSys.init n) sched).offsets.length = n := by
      rw [allDone_offsets _ hd, hlen]
    rw [hn] at hp
    refine ⟨hn, hp, ?_⟩
    have := hp.map fun o : Int => o.tdiv (dataLen : Int)
    rw [multiples_tdiv dataLen hL n] at this
    exact this

/-- C5: for every data file built by `NewDataFile` (so `dataLen > 0`), every number `n`
of concurrent `Read` calls and every interleaving of their atomic loads and
compare-and-swaps: the offsets held at any moment are pairwise distinct and are the
first multiples of `dataLen`; an interleaving in which only goroutines still in their
loops step has at most `n * (2 * n + 2)` steps, and as long as some goroutine is in its
loop one of them can step, so every loop terminates; when all have left their loops the
`n` offsets are exactly `0, dataLen, ..., (n - 1) * dataLen` and the sequence numbers
`offset / dataLen` exactly `0, ..., n - 1`. -/
theorem allocation_exclusive (fs : FS) (path : String) (dataLen : Nat) (df0 : myDataFile)
    (h : (NewDataFile fs path dataLen).1 = Except.ok df0) (n : Nat) (sched : List Nat) :
    ((AllocSys.run df0.dataLen (AllocSys.readers df0 n) sched).offsets.Nodup ∧
        (AllocSys.run df0.dataLen (AllocSys.readers df0 n) sched).offsets.Perm
          (multiples dataLen
            (AllocSys.run df0.dataLen (AllocSys.readers df0 n) sched).offsets.length)) ∧
      (AllocSys.effective df0.dataLen (AllocSys.readers df0 n) sched = true →
        sched.length ≤ n * (2 * n + 2)) ∧
      ((AllocSys.run df0.dataLen (AllocSys.readers df0 n) sched).allDone = false →
        ∃ i, i < n ∧ (AllocSys.run df0.dataLen (AllocSys.readers df0 n) sched).live i = true) ∧
      ((AllocSys.run df0.dataLen (AllocSys.readers df0 n) sched).allDone = true →
        (AllocSys.run df0.dataLen (AllocSys.readers df0 n) sched).offsets.length = n ∧
          (AllocSys.run df0.dataLen (AllocSys.readers df0 n) sched).offsets.Perm
            (multiples dataLen n) ∧
          ((AllocSys.run df0.dataLen (AllocSys.readers df0 n) sched).offsets.map
            fun o : Int => o.tdiv (df0.dataLen : Int)).Perm (seqNumbers n)) := by
  obtain ⟨e1, e2, hL⟩ := readers_fresh fs path dataLen df0 h n
  rw [e1, e2]
  exact init_exclusive dataLen hL n sched

/-- Witness of C5: block length 4 and two calls; in the interleaving 0, 1, 0, 1, 1, 1 the
swap of goroutine 1 fails once, and the calls leave with the offsets 0 and 4. -/
theorem allocation_exclusive_witness :
    (AllocSys.run 4 (AllocSys.readers (fresh 4) 2) [0, 1, 0, 1, 1, 1]).allDone = true ∧
      (AllocSys.run 4 (AllocSys.readers (fresh 4) 2) [0, 1, 0, 1, 1, 1]).offsets = [0, 4] ∧
      (AllocSys.run 4 (AllocSys.readers (fresh 4) 2) [0, 1, 0, 1, 1, 1]).offsets.Nodup ∧
      [0, 1, 0, 1, 1, 1].length ≤ 2 * (2 * 2 + 2) ∧
      ((AllocSys.run 4 (AllocSys.readers (fresh 4) 2) [0, 1, 0, 1, 1, 1]).offsets.map
        fun o : Int => o.tdiv ((4 : Nat) : Int)).Perm (seqNumbers 2) :=
  have h := allocation_exclusive emptyFS "log" 4 (fresh 4) rfl 2 [0, 1, 0, 1, 1, 1]
  ⟨by decide, by decide, h.1.1, h.2.1 (by decide), (h.2.2.2 (by decide)).2.2⟩

/-! ## The range of the model -/

theorem writeCalls_le (ops : List Op) : writeCalls ops ≤ ops.length := by
  induction ops with
  | nil => simp [writeCalls]
  | cons op ops ih =>
    cases op <;> simp only [writeCalls, List.length_cons] <;> omega

theorem readCalls_le (ops : List Op) : readCalls ops ≤ ops.length := by
  induction ops with
  | nil => simp [readCalls]
  | cons op ops ih =>
    cases op <;> simp only [readCalls, List.length_cons] <;> omega

/-- For a block length that fits a `uint32` and fewer than `2 ^ 31` calls, the cursors
and the sums `offset + dataLen` the next call computes are non-negative and below
`2 ^ 63`: no `int64` addition of the program wraps, and the integers of the model are
the values of the program. -/
theorem cursors_in_range (fs : FS) (path : String) (dataLen : Nat) (df0 : myDataFile)
    (h : (NewDataFile fs path dataLen).1 = Except.ok df0) (hu : dataLen < 2 ^ 32)
    (ops : List Op) (hn : ops.length < 2 ^ 31) :
    0 ≤ (exec df0 ops).woffset ∧ (exec df0 ops).woffset + (dataLen : Int) < 2 ^ 63 ∧
      0 ≤ (exec df0 ops).roffset ∧ (exec df0 ops).roffset + (dataLen : Int) < 2 ^ 63 := by
  obtain ⟨_, _, hw, hr⟩ := exec_cursors fs path dataLen df0 h ops
  have h1 := writeCalls_le ops
  have h2 := readCalls_le ops
  have hb : ∀ m : Nat, m ≤ ops.length →
      0 ≤ (m : Int) * (dataLen : Int) ∧ (m : Int) * (dataLen : Int) + (dataLen : Int) < 2 ^ 63 := by
    intro m hm
    refine ⟨by positivity, ?_⟩
    have hm' : m + 1 ≤ 2 ^ 31 := by omega
    have : (m + 1) * dataLen < 2 ^ 31 * 2 ^ 32 := by
      calc (m + 1) * dataLen ≤ 2 ^ 31 * dataLen := Nat.mul_le_mul_right _ hm'
        _ < 2 ^ 31 * 2 ^ 32 := Nat.mul_lt_mul_of_pos_left hu (by norm_num)
    have h63 : (2 : Nat) ^ 31 * 2 ^ 32 = 2 ^ 63 := by norm_num
    rw [h63] at this
    have hc : ((m : Int) * (dataLen : Int) + (dataLen : Int)) = (((m + 1) * dataLen : Nat) : Int) := by
      push_cast
      ring
    rw [hc]
    exact_mod_cast this
  rw [hw, hr]
  exact ⟨(hb _ h1).1, (hb _ h1).2, (hb _ h2).1, (hb _ h2).2⟩

/-! ## The wait of `Read` -/

theorem Read_rcond_L (df : myDataFile) : (Read df).2.rcond.L = df.rcond.L := by
  unfold Read
  simp only [Cond.Wait]
  split_ifs
  · rfl
  · repeat' split
    all_goals first
      | rfl
      | (rename_i hw
         simp only [Prod.mk.injEq] at hw
         rw [← hw.1])

theorem Write_rcond_L (df : myDataFile) (d : Data) : (Write df d).2.rcond.L = df.rcond.L := by
  unfold Write
  simp only [Cond.Signal]
  split_ifs
  · rfl
  · repeat' split
    all_goals rfl

theorem exec_rcond_L (df : myDataFile) (ops : List Op) : (exec df ops).rcond.L = df.rcond.L := by
  induction ops generalizing df with
  | nil => rfl
  | cons op ops ih =>
    rw [exec_cons, ih]
    cases op with
    | Read => exact Read_rcond_L df
    | Write d => exact Write_rcond_L df d

/-- With the condition variable built on the read side of the file mutex, no `Read`
parks, whatever the state of the data file: a `Read` that reaches its wait holds the
mutex for writing, no reader holds it, and the `RUnlock` of the wait is fatal. -/
theorem Read_never_parks (df : myDataFile) (hc : df.rcond.L = Locker.R) :
    (Read df).1 ≠ Outcome.parked := by
  unfold Read
  simp only
  by_cases hL : df.dataLen = 0
  · simp [hL]
  · simp only [hL, if_false]
    cases hl : df.fmutex.Lock with
    | none => simp
    | some held =>
      have hheld : held.readers = 0 := by
        unfold RWMutex.Lock at hl
        split_ifs at hl with hh
        injection hl with hl
        subst hl
        simp only [not_or, not_lt, Nat.le_zero] at hh
        exact hh.2
      have hu : ∃ rw, held.Unlock = Except.ok rw := by
        unfold RWMutex.Lock at hl
        split_ifs at hl
        injection hl with hl
        subst hl
        exact ⟨_, rfl⟩
      obtain ⟨rw, hu⟩ := hu
      simp only [Cond.Wait, hc, Locker.Unlock, RWMutex.RUnlock, hheld, if_true, hu]
      repeat' split
      all_goals simp_all

/-- In every state reached from a data file built by `NewDataFile`, `Read` does not
park. -/
theorem Read_never_parks_reachable (fs : FS) (path : String) (dataLen : Nat)
    (df0 : myDataFile) (h : (NewDataFile fs path dataLen).1 = Except.ok df0) (ops : List Op) :
    (Read (exec df0 ops)).1 ≠ Outcome.parked := by
  apply Read_never_parks
  rw [exec_rcond_L]
  obtain ⟨_, _, hdf⟩ := NewDataFile_ok fs path dataLen df0 h
  subst hdf
  rfl


/-! ## The cursors in `int64` arithmetic -/


theorem wrapInt64_of_range (x : Int) (h0 : -2 ^ 63 ≤ x) (h1 : x < 2 ^ 63) : wrapInt64 x = x := by
  unfold wrapInt64
  rw [Int.emod_eq_of_lt (by omega) (by omega)]
  omega


theorem wrapInt64_add (x y : Int) : wrapInt64 (wrapInt64 x + y) = wrapInt64 (x + y) := by
  unfold wrapInt64
  have e : (x + 2 ^ 63) % 2 ^ 64 - 2 ^ 63 + y + 2 ^ 63 = (x + 2 ^ 63) % 2 ^ 64 + y := by ring
  rw [e, Int.emod_add_emod]
  have e2 : x + 2 ^ 63 + y = x + y + 2 ^ 63 := by ring
  rw [e2]


theorem wrapInt64_idem (x : Int) : wrapInt64 (wrapInt64 x) = wrapInt64 x := by
  have := wrapInt64_add x 0
  simpa using this


theorem allocate64_fst (cursor : Int) (dataLen : Nat) : (allocate64 cursor dataLen).1 = cursor := rfl


theorem allocate64_snd (cursor : Int) (dataLen : Nat) :
    (allocate64 cursor dataLen).2 = wrapInt64 (cursor + (dataLen : Int)) := by
  simp [allocate64, CompareAndSwapInt64, LoadInt64]


theorem Read64_roffset (df : myDataFile) :
    (Read64 df).2.roffset = wrapInt64 (df.roffset + (df.dataLen : Int)) := by
  unfold Read64
  simp only [allocate64_snd]
  split_ifs
  · rfl
  · repeat' split
    all_goals rfl


theorem Read64_woffset (df : myDataFile) : (Read64 df).2.woffset = df.woffset := by
  unfold Read64
  simp only
  split_ifs
  · rfl
  · repeat' split
    all_goals rfl


theorem Read64_dataLen (df : myDataFile) : (Read64 df).2.dataLen = df.dataLen := by
  unfold Read64
  simp only
  split_ifs
  · rfl
  · repeat' split
    all_goals rfl


theorem Write64_woffset (df : myDataFile) (d : Data) :
    (Write64 df d).2.woffset = wrapInt64 (df.woffset + (df.dataLen : Int)) := by
  unfold Write64
  simp only [allocate64_snd]
  split_ifs
  · rfl
  · repeat' split
    all_goals rfl


theorem Write64_roffset (df : myDataFile) (d : Data) : (Write64 df d).2.roffset = df.roffset := by
  unfold Write64
  simp only
  split_ifs
  · rfl
  · repeat' split
    all_goals rfl


theorem Write64_dataLen (df : myDataFile) (d : Data) : (Write64 df d).2.dataLen = df.dataLen := by
  unfold Write64
  simp only
  split_ifs
  · rfl
  · repeat' split
    all_goals rfl


/-- As long as the sum `offset + dataLen` is an `int64` value, `Write` in `Int` is
`Write` in `int64`. -/
theorem Write64_eq_Write (df : myDataFile) (d : Data)
    (h : wrapInt64 (df.woffset + (df.dataLen : Int)) = df.woffset + (df.dataLen : Int)) :
    Write64 df d = Write df d := by
  have e : allocate64 df.woffset df.dataLen = allocate df.woffset df.dataLen := by
    simp [allocate64, allocate, CompareAndSwapInt64, LoadInt64, h]
  unfold Write64 Write
  rw [e]


/-- As long as the sum `offset + dataLen` is an `int64` value, `Read` in `Int` is
`Read` in `int64`. -/
theorem Read64_eq_Read (df : myDataFile)
    (h : wrapInt64 (df.roffset + (df.dataLen : Int)) = df.roffset + (df.dataLen : Int)) :
    Read64 df = Read df := by
  have e : allocate64 df.roffset df.dataLen = allocate df.roffset df.dataLen := by
    simp [allocate64, allocate, CompareAndSwapInt64, LoadInt64, h]
  unfold Read64 Read
  rw [e]


theorem exec64_cons (df : myDataFile) (op : Op) (ops : List Op) :
    exec64 df (op :: ops) = exec64 (call64 df op) ops := rfl


theorem exec64_append (df : myDataFile) (xs ys : List Op) :
    exec64 df (xs ++ ys) = exec64 (exec64 df xs) ys := by
  simp [exec64, List.foldl_append]


theorem call64_dataLen (df : myDataFile) (op : Op) : (call64 df op).dataLen = df.dataLen := by
  cases op with
  | Read => exact Read64_dataLen df
  | Write d => exact Write64_dataLen df d


theorem exec64_dataLen (df : myDataFile) (ops : List Op) :
    (exec64 df ops).dataLen = df.dataLen := by
  induction ops generalizing df with
  | nil => rfl
  | cons op ops ih => rw [exec64_cons, ih, call64_dataLen]


theorem exec64_woffset (df : myDataFile) (ops : List Op) (h : wrapInt64 df.woffset = df.woffset) :
    (exec64 df ops).woffset
      = wrapInt64 (df.woffset + (writeCalls ops : Int) * (df.dataLen : Int)) := by
  induction ops generalizing df with
  | nil => simp [exec64, writeCalls, h]
  | cons op ops ih =>
    rw [exec64_cons]
    cases op with
    | Read =>
      have hw : (call64 df Op.Read).woffset = df.woffset := Read64_woffset df
      rw [ih _ (by rw [hw]; exact h), hw, call64_dataLen]
      rfl
    | Write d =>
      have hw : (call64 df (Op.Write d)).woffset = wrapInt64 (df.woffset + (df.dataLen : Int)) :=
        Write64_woffset df d
      rw [ih _ (by rw [hw]; exact wrapInt64_idem _), hw, call64_dataLen, wrapInt64_add]
      congr 1
      simp only [writeCalls]
      push_cast
      ring


theorem exec64_roffset (df : myDataFile) (ops : List Op) (h : wrapInt64 df.roffset = df.roffset) :
    (exec64 df ops).roffset
      = wrapInt64 (df.roffset + (readCalls ops : Int) * (df.dataLen : Int)) := by
  induction ops generalizing df with
  | nil => simp [exec64, readCalls, h]
  | cons op ops ih =>
    rw [exec64_cons]
    cases op with
    | Read =>
      have hr : (call64 df Op.Read).roffset = wrapInt64 (df.roffset + (df.dataLen : Int)) :=
        Read64_roffset df
      rw [ih _ (by rw [hr]; exact wrapInt64_idem _), hr, call64_dataLen, wrapInt64_add]
      congr 1
      simp only [readCalls]
      push_cast
      ring
    | Write d =>
      have hr : (call64 df (Op.Write d)).roffset = df.roffset := Write64_roffset df d
      rw [ih _ (by rw [hr]; exact h), hr, call64_dataLen]
      rfl


/-- The `int64` cursors of a data file built by `NewDataFile` after any sequence of
calls: the wrapped multiples of the block length. -/
theorem exec64_cursors (fs : FS) (path : String) (dataLen : Nat) (df0 : myDataFile)
    (h : (NewDataFile fs path dataLen).1 = Except.ok df0) (ops : List Op) :
    (exec64 df0 ops).dataLen = dataLen ∧ dataLen ≠ 0 ∧
      (exec64 df0 ops).woffset = wrapInt64 ((writeCalls ops : Int) * (dataLen : Int)) ∧
      (exec64 df0 ops).roffset = wrapInt64 ((readCalls ops : Int) * (dataLen : Int)) := by
  obtain ⟨hL, _, hdf⟩ := NewDataFile_ok fs path dataLen df0 h
  have hd : df0.dataLen = dataLen := by rw [hdf]; rfl
  have hw : df0.woffset = 0 := by rw [hdf]; rfl
  have hr : df0.roffset = 0 := by rw [hdf]; rfl
  have h0 : wrapInt64 0 = 0 := by decide
  refine ⟨by rw [exec64_dataLen, hd], hL, ?_, ?_⟩
  · rw [exec64_woffset _ _ (by rw [hw]; exact h0), hw, hd, zero_add]
  · rw [exec64_roffset _ _ (by rw [hr]; exact h0), hr, hd, zero_add]


theorem writeCalls_replicate (n : Nat) (d : Data) :
    writeCalls (List.replicate n (Op.Write d)) = n := by
  induction n with
  | zero => rfl
  | succ n ih => simp [List.replicate_succ, writeCalls, ih]

/-- The sequence number `Wsn()` after `n` calls `Write(nil)` on a new data file, the
cursor in `int64` arithmetic. -/
theorem Wsn_replicate (fs : FS) (path : String) (dataLen : Nat) (df0 : myDataFile)
    (h : (NewDataFile fs path dataLen).1 = Except.ok df0) (n : Nat) :
    Wsn (exec64 df0 (List.replicate n (Op.Write [])))
      = some ((wrapInt64 ((n : Int) * (dataLen : Int))).tdiv (dataLen : Int)) ∧
    (exec64 df0 (List.replicate n (Op.Write []))).woffset
      = wrapInt64 ((n : Int) * (dataLen : Int)) := by
  have hc := exec64_cursors fs path dataLen df0 h (List.replicate n (Op.Write []))
  rw [writeCalls_replicate] at hc
  obtain ⟨hd, hL, hw, _⟩ := hc
  refine ⟨?_, hw⟩
  simp only [Wsn, LoadInt64, hd, hL, hw, if_false]
/-- As long as the products stay below `2 ^ 63`, the `int64` cursors are the numbers of
calls times the block length and the sequence numbers are the numbers of calls. -/
theorem exec64_counts (fs : FS) (path : String) (dataLen : Nat) (df0 : myDataFile)
    (h : (NewDataFile fs path dataLen).1 = Except.ok df0) (ops : List Op)
    (hw : (writeCalls ops : Int) * (dataLen : Int) < 2 ^ 63)
    (hr : (readCalls ops : Int) * (dataLen : Int) < 2 ^ 63) :
    (exec64 df0 ops).woffset = (writeCalls ops : Int) * (dataLen : Int) ∧
      (exec64 df0 ops).roffset = (readCalls ops : Int) * (dataLen : Int) ∧
      Wsn (exec64 df0 ops) = some (writeCalls ops : Int) ∧
      Rsn (exec64 df0 ops) = some (readCalls ops : Int) := by
  obtain ⟨hd, hL, ew, er⟩ := exec64_cursors fs path dataLen df0 h ops
  have hw0 : (0 : Int) ≤ (writeCalls ops : Int) * (dataLen : Int) :=
    Int.mul_nonneg (Int.ofNat_nonneg _) (Int.ofNat_nonneg _)
  have hr0 : (0 : Int) ≤ (readCalls ops : Int) * (dataLen : Int) :=
    Int.mul_nonneg (Int.ofNat_nonneg _) (Int.ofNat_nonneg _)
  rw [wrapInt64_of_range _ (by omega) hw] at ew
  rw [wrapInt64_of_range _ (by omega) hr] at er
  exact ⟨ew, er, Wsn_of_woffset _ _ (by rw [hd]; exact hL) (by rw [hd]; exact ew),
    Rsn_of_roffset _ _ (by rw [hd]; exact hL) (by rw [hd]; exact er)⟩

/-- C6 as stated fails: block length 4294967295 and calls `Write(nil)` on a new data
file.  After 2147483648 calls `Wsn()` is 2147483648; the next call wraps the `int64`
write cursor to -9223372034707292161 and `Wsn()` is -2147483648: it decreased, and it is
not the number of calls. -/
theorem Wsn_decreases_at_wrap :
    (NewDataFile emptyFS "log" 4294967295).1 = Except.ok (fresh 4294967295) ∧
      Wsn (exec64 (fresh 4294967295) (List.replicate 2147483648 (Op.Write [])))
        = some 2147483648 ∧
      (exec64 (fresh 4294967295) (List.replicate 2147483649 (Op.Write []))).woffset
        = -9223372034707292161 ∧
      Wsn (exec64 (fresh 4294967295) (List.replicate 2147483649 (Op.Write [])))
        = some (-2147483648) := by
  have k := Wsn_replicate emptyFS "log" 4294967295 (fresh 4294967295) rfl
  refine ⟨rfl, ?_, ?_, ?_⟩
  · rw [(k 2147483648).1]
    decide
  · rw [(k 2147483649).2]
    decide
  · rw [(k 2147483649).1]
    decide

/-- C6 amended: in every state reached from a data file built by `NewDataFile` by `m`
`Write` calls and `n` `Read` calls with `(m + 1) * dataLen < 2 ^ 63` and
`(n + 1) * dataLen < 2 ^ 63` (the `int64` cursors do not wrap): `Wsn() = m` and
`Rsn() = n`; a `Write` call adds `dataLen` to the write offset (1 to `Wsn()`) and leaves
the read offset alone, a `Read` call adds `dataLen` to the read offset (1 to `Rsn()`) and
leaves the write offset alone; `Wsn()` and `Rsn()` do not decrease along further calls
that keep the cursors below `2 ^ 63`. -/
theorem cursor_accounting_int64 (fs : FS) (path : String) (dataLen : Nat) (df0 : myDataFile)
    (h : (NewDataFile fs path dataLen).1 = Except.ok df0) (ops : List Op)
    (hw : ((writeCalls ops : Int) + 1) * (dataLen : Int) < 2 ^ 63)
    (hr : ((readCalls ops : Int) + 1) * (dataLen : Int) < 2 ^ 63) :
    Wsn (exec64 df0 ops) = some (writeCalls ops : Int) ∧
      Rsn (exec64 df0 ops) = some (readCalls ops : Int) ∧
      (∀ d : Data,
        (Write64 (exec64 df0 ops) d).2.woffset = (exec64 df0 ops).woffset + (dataLen : Int) ∧
          (Write64 (exec64 df0 ops) d).2.roffset = (exec64 df0 ops).roffset ∧
          Wsn (Write64 (exec64 df0 ops) d).2 = some ((writeCalls ops : Int) + 1) ∧
          Rsn (Write64 (exec64 df0 ops) d).2 = some (readCalls ops : Int)) ∧
      ((Read64 (exec64 df0 ops)).2.roffset = (exec64 df0 ops).roffset + (dataLen : Int) ∧
        (Read64 (exec64 df0 ops)).2.woffset = (exec64 df0 ops).woffset ∧
        Rsn (Read64 (exec64 df0 ops)).2 = some ((readCalls ops : Int) + 1) ∧
        Wsn (Read64 (exec64 df0 ops)).2 = some (writeCalls ops : Int)) ∧
      ∀ more : List Op,
        (writeCalls (ops ++ more) : Int) * (dataLen : Int) < 2 ^ 63 →
        (readCalls (ops ++ more) : Int) * (dataLen : Int) < 2 ^ 63 →
        ∃ w r : Int,
          Wsn (exec64 df0 (ops ++ more)) = some w ∧ Rsn (exec64 df0 (ops ++ more)) = some r ∧
            (writeCalls ops : Int) ≤ w ∧ (readCalls ops : Int) ≤ r := by
  have hLn : (0 : Int) ≤ (dataLen : Int) := Int.ofNat_nonneg _
  have ew1 : ((writeCalls ops : Int) + 1) * (dataLen : Int)
      = (writeCalls ops : Int) * (dataLen : Int) + (dataLen : Int) := by ring
  have er1 : ((readCalls ops : Int) + 1) * (dataLen : Int)
      = (readCalls ops : Int) * (dataLen : Int) + (dataLen : Int) := by ring
  have hw' : (writeCalls ops : Int) * (dataLen : Int) < 2 ^ 63 := by omega
  have hr' : (readCalls ops : Int) * (dataLen : Int) < 2 ^ 63 := by omega
  obtain ⟨c1, c2, c3, c4⟩ := exec64_counts fs path dataLen df0 h ops hw' hr'
  have hd : (exec64 df0 ops).dataLen = dataLen := (exec64_cursors fs path dataLen df0 h ops).1
  refine ⟨c3, c4, ?_, ?_, ?_⟩
  · intro d
    have k := exec64_counts fs path dataLen df0 h (ops ++ [Op.Write d])
      (by rw [writeCalls_append]; simpa [writeCalls] using hw)
      (by rw [readCalls_append]; simpa [readCalls] using hr')
    rw [exec64_append, writeCalls_append, readCalls_append] at k
    have e : exec64 (exec64 df0 ops) [Op.Write d] = (Write64 (exec64 df0 ops) d).2 := rfl
    rw [e] at k
    refine ⟨?_, Write64_roffset _ _, ?_, ?_⟩
    · rw [k.1, c1]
      simp only [writeCalls]
      push_cast
      ring
    · simpa [writeCalls] using k.2.2.1
    · simpa [readCalls] using k.2.2.2
  · have k := exec64_counts fs path dataLen df0 h (ops ++ [Op.Read])
      (by rw [writeCalls_append]; simpa [writeCalls] using hw')
      (by rw [readCalls_append]; simpa [readCalls] using hr)
    rw [exec64_append, writeCalls_append, readCalls_append] at k
    have e : exec64 (exec64 df0 ops) [Op.Read] = (Read64 (exec64 df0 ops)).2 := rfl
    rw [e] at k
    refine ⟨?_, Read64_woffset _, ?_, ?_⟩
    · rw [k.2.1, c2]
      simp only [readCalls]
      push_cast
      ring
    · simpa [readCalls] using k.2.2.2
    · simpa [writeCalls] using k.2.2.1
  · intro more bw br
    obtain ⟨_, _, m3, m4⟩ := exec64_counts fs path dataLen df0 h (ops ++ more) bw br
    refine ⟨_, _, m3, m4, ?_, ?_⟩
    · rw [writeCalls_append]
      push_cast
      omega
    · rw [readCalls_append]
      push_cast
      omega

/-- Witness of C6 amended: block length 4, after two `Write` calls and one `Read` call. -/
theorem cursor_accounting_int64_witness :
    Wsn (exec64 (fresh 4) [Op.Write [1, 2, 3, 4], Op.Read, Op.Write [5]]) = some 2 ∧
      Rsn (exec64 (fresh 4) [Op.Write [1, 2, 3, 4], Op.Read, Op.Write [5]]) = some 1 ∧
      Wsn (Write64 (exec64 (fresh 4) [Op.Write [1, 2, 3, 4], Op.Read, Op.Write [5]]) [6]).2
        = some 3 :=
  have h := cursor_accounting_int64 emptyFS "log" 4 (fresh 4) rfl
    [Op.Write [1, 2, 3, 4], Op.Read, Op.Write [5]] (by norm_num [writeCalls])
    (by norm_num [readCalls])
  ⟨h.1, h.2.1, (h.2.2.1 [6]).2.2.1⟩

/-- For a block length that fits a `uint32` and fewer than `2 ^ 31` calls on a new data
file, the calls in `Int` arithmetic and the calls in `int64` arithmetic reach the same
state. -/
theorem exec64_eq_exec (fs : FS) (path : String) (dataLen : Nat) (df0 : myDataFile)
    (h : (NewDataFile fs path dataLen).1 = Except.ok df0) (hu : dataLen < 2 ^ 32)
    (ops : List Op) (hn : ops.length < 2 ^ 31) : exec64 df0 ops = exec df0 ops := by
  induction ops using List.reverseRecOn with
  | nil => rfl
  | append_singleton ops op ih =>
    have hlen : ops.length < 2 ^ 31 := by
      rw [List.length_append, List.length_singleton] at hn
      omega
    obtain ⟨w0, w1, r0, r1⟩ := cursors_in_range fs path dataLen df0 h hu ops hlen
    have hd : (exec df0 ops).dataLen = dataLen := (exec_cursors fs path dataLen df0 h ops).1
    rw [exec64_append, exec_append, ih hlen]
    cases op with
    | Read =>
      show (Read64 (exec df0 ops)).2 = (Read (exec df0 ops)).2
      rw [Read64_eq_Read _ (by rw [hd]; exact wrapInt64_of_range _ (by omega) r1)]
    | Write d =>
      show (Write64 (exec df0 ops) d).2 = (Write (exec df0 ops) d).2
      rw [Write64_eq_Write _ _ (by rw [hd]; exact wrapInt64_of_range _ (by omega) w1)]

end FileMutexAtomic
